import Mathlib

/-!
# Mini torrent tracker (`tracker.c`): peer registry, announce handler, interval controller

A shallow embedding of the registry functions (`update_peer`, `search_infohash`,
`clearbase`, `updatebases`), of the announce handler (`lookfor`, `provide_announce`,
`endian_swap32`) and of the connection handler (`proceed`, with `req_cmp` and the query
parser) of `tracker.c`.

Modelling conventions.
* C strings are lists of byte values (`List Nat`), free of NUL; a string literal is written
  `ascii (..)`.
* The intrusive linked lists `struct peer *` / `struct base *` are Lean lists, in link order.
  A pointer into such a list is the position of the node.
* `time_t`, `long long` and the `int` counters `cpeers` / `cuppeers` are integers; `++` and `--`
  on the counters have their defined C meaning.  The 32-bit behaviour of `int` is written out
  where the program depends on it: the product in the interval formula, the conversion of
  the `strtol` result to the `int` field `port`, and `endian_swap32` (two's complement,
  arithmetic right shift, little-endian host).
* `time(NULL)`, `inet_addr`, `gethostbyname` and the floating-point expression
  `update + expire_factor * announce_interval` are inputs of the model (`Env`).
* `proceed` calls `recv` once (the block of lines 410-430 is not a `do` loop); what `recv`
  returns and whether the alarm went off are inputs of the model.
-/

namespace Tracker

/-! ## Bytes and C strings -/

/-- The bytes of an ASCII string literal. -/
def ascii (s : String) : List Nat := s.toList.map Char.toNat

/-- `tolower` in the C locale. -/
def tolower (c : Nat) : Nat := if 65 ≤ c ∧ c ≤ 90 then c + 32 else c

/-- `strcmp`: the sign of the result (negative, zero, positive). A C string holds no NUL
byte, so a proper prefix compares smaller. -/
def strcmp : List Nat → List Nat → Int
  | [], [] => 0
  | [], _ :: _ => -1
  | _ :: _, [] => 1
  | a :: as, b :: bs => if a = b then strcmp as bs else if a < b then -1 else 1

/-- `strcasecmp`: as `strcmp`, on the lower-cased bytes. -/
def strcasecmp : List Nat → List Nat → Int
  | [], [] => 0
  | [], _ :: _ => -1
  | _ :: _, [] => 1
  | a :: as, b :: bs =>
    if tolower a = tolower b then strcasecmp as bs else if tolower a < tolower b then -1 else 1

/-- `isspace` in the C locale: space, `\t`, `\n`, `\v`, `\f`, `\r`. -/
def isspace (c : Nat) : Bool := c == 32 || (9 ≤ c && c ≤ 13)

/-- `isdigit`. -/
def isdigit (c : Nat) : Bool := 48 ≤ c && c ≤ 57

/-! ## Machine integers -/

/-- Two's complement reading of the low 32 bits: the value of an `int` / `int32_t`. -/
def wrap32 (x : Int) : Int :=
  if x % 4294967296 < 2147483648 then x % 4294967296 else x % 4294967296 - 4294967296

/-- The bit pattern (as an unsigned 32-bit number) of an `int32_t` value. -/
def bits32 (x : Int) : Nat := (x % 4294967296).toNat

def LONG_MAX : Int := 9223372036854775807
def LONG_MIN : Int := -9223372036854775808
def USHRT_MAX : Int := 65535

/-- Saturation performed by `strtol` / `strtoll` on a 64-bit `long`. -/
def clamp64 (x : Int) : Int :=
  if x > LONG_MAX then LONG_MAX else if x < LONG_MIN then LONG_MIN else x

/-- `endian_swap32` (lines 60-63): `x` is a signed 32-bit integer, `>>` is the arithmetic
shift (floor division), `<<` keeps the low 32 bits. -/
def endian_swap32 (x : Int) : Int :=
  wrap32 (((bits32 (x / 16777216))
    ||| (((bits32 x <<< 8) % 4294967296) &&& 0x00FF0000)
    ||| ((bits32 (x / 256)) &&& 0x0000FF00)
    ||| ((bits32 x <<< 24) % 4294967296) : Nat) : Int)

/-- `htonl` on a little-endian host: reverses the four bytes of a `uint32_t`. -/
def htonl (u : Nat) : Nat :=
  (u % 256) * 16777216 + (u / 256 % 256) * 65536 + (u / 65536 % 256) * 256 + (u / 16777216 % 256)

/-- `htons` on a little-endian host: the argument is converted to `uint16_t`, its two bytes
are exchanged. -/
def htons (v : Int) : Nat :=
  ((v % 65536).toNat % 256) * 256 + (v % 65536).toNat / 256

/-- The two bytes a store through an `int16_t *` leaves in memory on a little-endian host:
the value is reduced to its low 16 bits, low byte first. -/
def store16 (v : Int) : List Nat :=
  [(v % 65536).toNat % 256, (v % 65536).toNat / 256]

/-- `s_addr` (network byte order, read on a little-endian host) of the address `o1.o2.o3.o4`. -/
def s_addr_of (o1 o2 o3 o4 : Nat) : Nat := o1 + o2 * 256 + o3 * 65536 + o4 * 16777216

/-! ## Decimal output (`%d`) -/

/-- Decimal digits of a natural number, most significant first; `fuel` bounds the number of
digits. -/
def dec_digits : Nat → Nat → List Nat → List Nat
  | 0, _, acc => acc
  | fuel + 1, n, acc =>
    if n / 10 = 0 then (48 + n % 10) :: acc else dec_digits fuel (n / 10) ((48 + n % 10) :: acc)

/-- The characters `printf("%d", x)` writes. -/
def fmt_d (x : Int) : List Nat :=
  if x < 0 then 45 :: dec_digits (x.natAbs + 1) x.natAbs [] else dec_digits (x.natAbs + 1) x.natAbs []

/-! ## Data base -/

def SIZE_PEERID : Nat := 60
def SIZE_INFOHASH : Nat := 60
def min_announce_interval : Int := 900
def max_announce_rate : Int := 500
def INADDR_NONE : Nat := 4294967295

/-- `struct peer` without its link field. `ip` is `ip.s_addr`. -/
structure Peer where
  ip : Nat
  port : Int
  peerid : List Nat
  uploaded : Int
  downloaded : Int
  left : Int
  update : Int
  expire : Int
deriving DecidableEq, Repr

/-- `struct base` without its link field. -/
structure Base where
  infohash : List Nat
  cpeers : Int
  cuppeers : Int
  peers : List Peer
deriving DecidableEq, Repr

/-- The two globals `db` and `announce_interval`. -/
structure State where
  db : List Base
  announce_interval : Int
deriving DecidableEq, Repr

/-- What the program obtains from its environment during one request. -/
structure Env where
  /-- The value `time(NULL)` returns. -/
  now : Int
  /-- The value of `update + (expire_factor*announce_interval)`, computed in `double` and
  converted to `time_t`, as a function of `update` and `announce_interval`. -/
  expire_at : Int → Int → Int
  /-- `inet_addr`: the `s_addr` of a dotted-quad literal, `INADDR_NONE` otherwise. -/
  inet_addr : List Nat → Nat
  /-- `gethostbyname`: the first address of the host when the lookup yields a usable
  IPv4 entry. -/
  gethostbyname : List Nat → Option Nat

/-- The test of lines 115-116: same address, same port, peer ids equal ignoring case. -/
def same_peer (peer q : Peer) : Bool :=
  peer.ip == q.ip && peer.port == q.port && strcasecmp peer.peerid q.peerid == 0

/-- The `while` loop of `update_peer`: position of the first node that passes the test,
counted from `i`. -/
def find_peer (peer : Peer) : List Peer → Nat → Option Nat
  | [], _ => none
  | q :: qs, i => if same_peer peer q then some i else find_peer peer qs (i + 1)

/-- The interval assignment of lines 128-130. The product is evaluated in `int`. -/
def compute_interval (cpeers cuppeers : Int) : Int :=
  let raw := Int.tdiv (wrap32 (wrap32 (cpeers * cuppeers) * 60)) (max_announce_rate * max_announce_rate)
  if raw < min_announce_interval then min_announce_interval else raw

/-- The node a `calloc` yields. -/
def blank_peer : Peer := ⟨0, 0, [], 0, 0, 0, 0, 0⟩

/-- Result of `update_peer`: the torrent afterwards, the position of the returned node and
the new value of the global `announce_interval`. -/
structure Updated where
  base : Base
  added : Nat
  interval : Int
deriving DecidableEq, Repr

/-- `update_peer` (lines 109-133). -/
def update_peer (env : Env) (base : Base) (peer : Peer) : Updated :=
  let found := find_peer peer base.peers 0
  let base1 : Base :=
    match found with
    | some _ => base
    | none => { base with peers := base.peers ++ [blank_peer],
                          cpeers := base.cpeers + 1, cuppeers := base.cuppeers + 1 }
  let pos : Nat :=
    match found with
    | some i => i
    | none => base.peers.length
  let interval := compute_interval base1.cpeers base1.cuppeers
  let stored : Peer := { peer with update := env.now, expire := env.expire_at env.now interval }
  { base := { base1 with peers := base1.peers.set pos stored }, added := pos, interval := interval }

/-- The base a `calloc` followed by the `strcpy` of line 146 yields. -/
def new_base (infohash : List Nat) : Base := ⟨infohash, 0, 0, []⟩

/-- The loop of `search_infohash`: position of the first torrent whose info hash equals
`infohash` ignoring case, counted from `i`. -/
def find_base (infohash : List Nat) : List Base → Nat → Option Nat
  | [], _ => none
  | b :: bs, i => if strcasecmp infohash b.infohash == 0 then some i else find_base infohash bs (i + 1)

/-- `search_infohash` (lines 135-148): the registry afterwards and the position of the
returned torrent. -/
def search_infohash (db : List Base) (infohash : List Nat) : List Base × Nat :=
  match find_base infohash db 0 with
  | some i => (db, i)
  | none => (db ++ [new_base infohash], db.length)

/-- The loop of `clearbase`: remaining peers, `cpeers` and `cuppeers`. -/
def clearbase_loop (curtime : Int) : List Peer → Int → Int → List Peer × Int × Int
  | [], c, u => ([], c, u)
  | p :: ps, c, u =>
    if p.expire < curtime then clearbase_loop curtime ps (c - 1) u
    else
      let r := clearbase_loop curtime ps c (if p.expire - 60 > curtime then u + 1 else u)
      (p :: r.1, r.2.1, r.2.2)

/-- `clearbase` (lines 150-168). -/
def clearbase (base : Base) (curtime : Int) : Base :=
  let r := clearbase_loop curtime base.peers base.cpeers 0
  { base with peers := r.1, cpeers := r.2.1, cuppeers := r.2.2 }

/-- `updatebases` (lines 170-182), `curtime` being the value of `time(NULL)`. -/
def updatebases (curtime : Int) : List Base → List Base
  | [] => []
  | b :: bs =>
    if (clearbase b curtime).cpeers = 0 then updatebases curtime bs
    else clearbase b curtime :: updatebases curtime bs

/-! ## Providing -/

/-- `struct request`: one parameter of the query. -/
structure Request where
  name : List Nat
  value : List Nat
deriving DecidableEq, Repr

def answer : List Nat :=
  ascii ("HTTP/1.1 200 OK\r\nServer: mini-tracker\r\nConnection: close\r\nCache-Control: no-cache\r\nContent-Type: text/plain\r\n\r\n")

def invalid_req : List Nat :=
  ascii ("d14:failure reason69:invalid request (see http://bitconjurer.org/BitTorrent/protocol.html)e")

/-- `lookfor` (lines 208-217): the first parameter whose name equals `str` ignoring case. -/
def lookfor : List Request → List Nat → Option Request
  | [], _ => none
  | r :: rs, str => if strcasecmp r.name str == 0 then some r else lookfor rs str

/-- Leading white space skipped by `strtol`. -/
def skip_space : List Nat → List Nat
  | [] => []
  | c :: cs => if isspace c then skip_space cs else c :: cs

/-- The run of decimal digits read by `strtol`: its value (continuing from `acc`) and the
unread rest. -/
def scan_digits : List Nat → Nat → Nat × List Nat
  | [], acc => (acc, [])
  | c :: cs, acc => if isdigit c then scan_digits cs (acc * 10 + (c - 48)) else (acc, c :: cs)

/-- Digits after the optional sign: `none` when there is no digit. -/
def strtol_digits (neg : Bool) (u : List Nat) : Option (Int × List Nat) :=
  match u with
  | [] => none
  | c :: _ =>
    if isdigit c then
      some (clamp64 (if neg then 0 - ((scan_digits u 0).1 : Int) else ((scan_digits u 0).1 : Int)),
            (scan_digits u 0).2)
    else none

/-- `strtol(s, &end, 10)` / `strtoll(s, &end, 10)` with a 64-bit result: the value returned
and the string `end` points to. White space is skipped, then an optional `-` or `+`, then
digits are read. Without any digit the value is 0 and `end` is `s`. -/
def strtol (s : List Nat) : Int × List Nat :=
  let r :=
    match skip_space s with
    | [] => none
    | c :: u =>
      if c = 45 then strtol_digits true u
      else if c = 43 then strtol_digits false u
      else strtol_digits false (c :: u)
  match r with
  | some v => v
  | none => (0, s)

/-- Lines 228-230 and 237-239: a string parameter of at most `size` bytes. -/
def get_string (req : List Request) (name : List Nat) (size : Nat) : Option (List Nat) :=
  match lookfor req name with
  | none => none
  | some r => if r.value.length > size then none else some r.value

/-- Lines 231-236: the `port` parameter. The `long` result of `strtol` is stored into the
`int` field `peer.port`, then tested. -/
def get_port (req : List Request) : Option Int :=
  match lookfor req (ascii ("port")) with
  | none => none
  | some r =>
    if (strtol r.value).2 ≠ [] ∨ wrap32 (strtol r.value).1 > USHRT_MAX ∨ wrap32 (strtol r.value).1 ≤ 0
    then none else some (wrap32 (strtol r.value).1)

/-- Lines 242-259: one of the counters `uploaded`, `downloaded`, `left`. -/
def get_counter (req : List Request) (name : List Nat) : Option Int :=
  match lookfor req name with
  | none => none
  | some r =>
    if (strtol r.value).2 ≠ [] ∨ (strtol r.value).1 < 0 then none else some (strtol r.value).1

/-- Lines 260-262: the `event` parameter is absent or one of the three known values. -/
def event_ok (req : List Request) : Bool :=
  match lookfor req (ascii ("event")) with
  | none => true
  | some r =>
    !(strcmp r.value (ascii ("started")) != 0 && strcmp r.value (ascii ("completed")) != 0
      && strcmp r.value (ascii ("stopped")) != 0)

/-- Lines 264-281: the address of the peer; `addr` is the source address of the connection. -/
def resolve_ip (env : Env) (addr : Nat) (req : List Request) : Nat :=
  let ip :=
    match lookfor req (ascii ("ip")) with
    | none => INADDR_NONE
    | some r =>
      if env.inet_addr r.value == INADDR_NONE then
        match env.gethostbyname r.value with
        | some a => a
        | none => INADDR_NONE
      else env.inet_addr r.value
  if ip == INADDR_NONE then addr else ip

/-- Lines 228-281 of `provide_announce`: the checks that end in `goto error` and the filling
of the local `peer`. `none` is the jump to `error`. The fields `update` and `expire` of the
local are not set here; `update_peer` writes both before they are read. -/
def parse_announce (env : Env) (addr : Nat) (req : List Request) : Option (List Nat × Peer) :=
  match get_string req (ascii ("info_hash")) SIZE_INFOHASH with
  | none => none
  | some infohash =>
  match get_port req with
  | none => none
  | some port =>
  match get_string req (ascii ("peer_id")) SIZE_PEERID with
  | none => none
  | some peerid =>
  match get_counter req (ascii ("uploaded")) with
  | none => none
  | some uploaded =>
  match get_counter req (ascii ("downloaded")) with
  | none => none
  | some downloaded =>
  match get_counter req (ascii ("left")) with
  | none => none
  | some left =>
  if event_ok req then
    some (infohash, { ip := resolve_ip env addr req, port := port, peerid := peerid,
                      uploaded := uploaded, downloaded := downloaded, left := left,
                      update := 0, expire := 0 })
  else none

/-- Lines 298-303: the six bytes written for one peer in the compact form. -/
def compact_record (p : Peer) : List Nat :=
  let t := endian_swap32 (wrap32 (htonl p.ip))
  store16 (bits32 t &&& 65535 : Nat) ++ store16 (t / 65536) ++ store16 (htons p.port)

/-- The loop of lines 293-306; `i` is the position of the head of the list and `added`
the position of the node returned by `update_peer`. -/
def compact_loop (added : Nat) : List Peer → Nat → List Nat
  | [], _ => []
  | p :: ps, i => (if i ≠ added then compact_record p else []) ++ compact_loop added ps (i + 1)

/-- Lines 289-307: the body of the compact reply. `%d` renders the number
`COMPACT_SIZE * (b->cpeers - 1)`. -/
def compact_body (interval : Int) (b : Base) (added : Nat) : List Nat :=
  ascii ("d8:intervali") ++ fmt_d interval ++ ascii ("e5:peers") ++ fmt_d (6 * (b.cpeers - 1))
    ++ ascii (":") ++ compact_loop added b.peers 0 ++ ascii ("e")

/-- `inet_ntoa`: the four bytes of `s_addr` in memory order, in decimal, separated by dots. -/
def inet_ntoa (ip : Nat) : List Nat :=
  fmt_d (ip % 256 : Nat) ++ ascii (".") ++ fmt_d (ip / 256 % 256 : Nat) ++ ascii (".")
    ++ fmt_d (ip / 65536 % 256 : Nat) ++ ascii (".") ++ fmt_d (ip / 16777216 % 256 : Nat)

/-- Line 320: the dictionary written for one peer. -/
def nopeerid_record (p : Peer) : List Nat :=
  ascii ("d2:ip") ++ fmt_d ((inet_ntoa p.ip).length : Nat) ++ ascii (":") ++ inet_ntoa p.ip
    ++ ascii ("4:porti") ++ fmt_d p.port ++ ascii ("ee")

/-- The loop of lines 314-323. -/
def nopeerid_loop (added : Nat) : List Peer → Nat → List Nat
  | [], _ => []
  | p :: ps, i => (if i ≠ added then nopeerid_record p else []) ++ nopeerid_loop added ps (i + 1)

/-- Lines 310-325: the body of the dictionary-list reply. -/
def nopeerid_body (interval : Int) (b : Base) (added : Nat) : List Nat :=
  ascii ("d8:intervali") ++ fmt_d interval ++ ascii ("e5:peersl") ++ nopeerid_loop added b.peers 0
    ++ ascii ("ee")

/-- `provide_announce` (lines 219-338): the globals afterwards and the buffers passed to
`send`, in order. -/
def provide_announce (env : Env) (addr : Nat) (st : State) (req : List Request) :
    State × List (List Nat) :=
  match parse_announce env addr req with
  | none => (st, [invalid_req])
  | some (infohash, peer) =>
    let s := search_infohash st.db infohash
    let u := update_peer env (s.1.getD s.2 (new_base infohash)) peer
    let st1 : State := { db := s.1.set s.2 u.base, announce_interval := u.interval }
    if (lookfor req (ascii ("compact"))).isSome then
      (st1, [answer, compact_body u.interval u.base u.added])
    else if (lookfor req (ascii ("no_peer_id"))).isSome then
      (st1, [answer, nopeerid_body u.interval u.base u.added])
    else (st1, [invalid_req])

/-! ## Support: the request reader and the query parser of `proceed` -/

def HTTP_BUFFER_SIZE : Nat := 2048
def SEP_BUFFER_SIZE : Nat := 40

def notfound : List Nat :=
  ascii ("HTTP/1.1 404 Not Found\r\nServer: mini-tracker\r\nConnection: close\r\nContent-Type: text/html\r\n\r\n<html><head>404 NOT FOUND</head><body><h1>404</h1>Page not found!</body></html>")

def announce : List Nat := ascii ("/announce.php?")
def scrape : List Nat := ascii ("/scrape.php?")

/-- `provide_scrape` (lines 340-344): the buffers passed to `send`. -/
def provide_scrape : List (List Nat) := [notfound]

/-- `req_cmp` (lines 381-384). -/
def req_cmp (a1 a2 : Request) : Int := strcmp a1.name a2.name

/-- Insertion of one parameter into a list sorted by `req_cmp`, before the first parameter
that does not compare smaller. -/
def sort_insert (r : Request) : List Request → List Request
  | [] => [r]
  | x :: xs => if req_cmp r x ≤ 0 then r :: x :: xs else x :: sort_insert r xs

/-- `qsort` with `req_cmp` (line 476). The C library leaves the relative order of parameters
with equal names open; the model keeps them in their original order. -/
def qsort : List Request → List Request
  | [] => []
  | r :: rs => sort_insert r (qsort rs)

/-- `strtok` with a single delimiter byte, applied to the string at the saved position `s`:
leading delimiters are skipped; at the end of the string the result is `none` (NULL);
otherwise the token runs up to the next delimiter or the end, and the new saved position is
behind that delimiter. -/
def strtok (delim : Nat) (s : List Nat) : Option (List Nat × List Nat) :=
  match s.dropWhile (fun c => c == delim) with
  | [] => none
  | c :: cs =>
    some ((c :: cs).takeWhile (fun x => x != delim),
          ((c :: cs).dropWhile (fun x => x != delim)).drop 1)

/-- The `for` loop of lines 457-470 with `n` iterations left, `s` being the saved position of
`strtok`: `none` is the jump to `inv` (a name without value), otherwise the parameters read. -/
def parse_loop : Nat → List Nat → Option (List Request)
  | 0, _ => some []
  | n + 1, s =>
    match strtok 61 s with
    | none => some []
    | some (name, s1) =>
      match strtok 38 s1 with
      | none => none
      | some (value, s2) =>
        match parse_loop n s2 with
        | none => none
        | some rs => some (⟨name, value⟩ :: rs)

/-- Lines 456-476: the parameter set built from the query (the text behind the `?` of the
target), sorted; `none` is the jump to `inv`. -/
def parse_query (q : List Nat) : Option (List Request) :=
  match parse_loop SEP_BUFFER_SIZE q with
  | none => none
  | some [] => none
  | some (r :: rs) => some (qsort (r :: rs))

/-- What the `recv` of line 411 returns: bytes, `-1` with `EAGAIN`, or `-1` with another
error. -/
inductive Recv where
  | data : List Nat → Recv
  | eagain : Recv
  | failed : Recv

/-- `strncmp(s, pre, strlen(pre)) == 0`. -/
def starts_with (pre s : List Nat) : Bool := s.take pre.length == pre

/-- The test that ends the wait of line 431: the four bytes before `pos` are `\r\n\r\n`.
With fewer than four bytes received the C test reads in front of the buffer; the model
answers no. -/
def terminated (got : List Nat) : Bool :=
  4 ≤ got.length && got.drop (got.length - 4) == [13, 10, 13, 10]

/-- Lines 438-483 of `proceed`, `buffer` holding the request: the globals afterwards and the
buffers passed to `send`. `curtime` is the value `time(NULL)` returns in `updatebases`. -/
def dispatch (env : Env) (curtime : Int) (addr : Nat) (buffer : List Nat) (st : State) :
    State × List (List Nat) :=
  if !starts_with (ascii ("GET ")) buffer then (st, [])
  else if !starts_with announce (buffer.drop 4) && !starts_with scrape (buffer.drop 4) then
    (st, [notfound])
  else
    let r := if starts_with announce (buffer.drop 4) then announce.length else scrape.length
    let target := ((buffer.drop 4).drop (r - 2)).takeWhile (fun c => c != 32)
    match strtok 63 target with
    | none => (st, [])
    | some (_, q) =>
      match parse_query q with
      | none => (st, [])
      | some req =>
        let st1 : State := ⟨updatebases curtime st.db, st.announce_interval⟩
        if r = announce.length then provide_announce env addr st1 req
        else (st1, provide_scrape)

/-- `proceed` (lines 401-486). `rcv` is the result of the one call of `recv` (at most
`HTTP_BUFFER_SIZE` bytes are taken); `alrm_was` tells whether the alarm went off before the
request was complete. A request that does not end in `\r\n\r\n` keeps the program waiting
until the alarm, and is dropped. -/
def proceed (env : Env) (curtime : Int) (addr : Nat) (rcv : Recv) (alrm_was : Bool)
    (st : State) : State × List (List Nat) :=
  match rcv with
  | Recv.failed => (st, [])
  | Recv.eagain => (st, [])
  | Recv.data bytes =>
    let got := bytes.take HTTP_BUFFER_SIZE
    if HTTP_BUFFER_SIZE - got.length = 0 then (st, [])
    else if alrm_was || !terminated got then (st, [])
    else dispatch env curtime addr got st

/-- One announce request as `proceed` runs it once the parameters are parsed (lines 478-480):
the sweep at `curtime`, then `provide_announce`. -/
def announce_request (env : Env) (curtime : Int) (addr : Nat) (st : State)
    (req : List Request) : State × List (List Nat) :=
  provide_announce env addr ⟨updatebases curtime st.db, st.announce_interval⟩ req

/-- The inputs of one announce request. -/
structure Step where
  env : Env
  curtime : Int
  addr : Nat
  req : List Request

/-- The globals after a sequence of announce requests. -/
def run (st : State) : List Step → State
  | [] => st
  | a :: as => run (announce_request a.env a.curtime a.addr st a.req).1 as

/-! ## Bencoding (reference decoder) -/

/-- A bencoded value. -/
inductive BValue where
  | int : Int → BValue
  | str : List Nat → BValue
  | list : List BValue → BValue
  | dict : List (List Nat × BValue) → BValue

/-- Reference decoder, one or more digits closed by the byte `stop`: the number and the
bytes after `stop`. -/
def bdecode_nat (stop : Nat) (bs : List Nat) : Option (Nat × List Nat) :=
  match bs with
  | [] => none
  | c :: cs =>
    if isdigit c then
      match (scan_digits (c :: cs) 0).2 with
      | [] => none
      | e :: rest => if e = stop then some ((scan_digits (c :: cs) 0).1, rest) else none
    else none

/-- Reference decoder, integer part: an optional `-` and digits up to the closing `e`. -/
def bdecode_int (bs : List Nat) : Option (Int × List Nat) :=
  match bs with
  | [] => none
  | c :: cs =>
    if c = 45 then
      match bdecode_nat 101 cs with
      | none => none
      | some (n, rest) => some (0 - (n : Int), rest)
    else
      match bdecode_nat 101 (c :: cs) with
      | none => none
      | some (n, rest) => some ((n : Int), rest)

/-- Reference decoder, byte string `<length>:<bytes>`; fails when fewer than `length` bytes
follow. -/
def bdecode_str (bs : List Nat) : Option (List Nat × List Nat) :=
  match bdecode_nat 58 bs with
  | none => none
  | some (n, rest) => if n ≤ rest.length then some (rest.take n, rest.drop n) else none

/-- Reference decoder, elements of a list up to the closing `e`, each read by `dec`. -/
def bdecode_items (dec : List Nat → Option (BValue × List Nat)) :
    Nat → List Nat → Option (List BValue × List Nat)
  | 0, _ => none
  | _ + 1, [] => none
  | n + 1, c :: cs =>
    if c = 101 then some ([], cs)
    else
      match dec (c :: cs) with
      | none => none
      | some (v, rest) =>
        match bdecode_items dec n rest with
        | none => none
        | some (vs, rest2) => some (v :: vs, rest2)

/-- Reference decoder, key/value pairs of a dictionary up to the closing `e`. -/
def bdecode_pairs (dec : List Nat → Option (BValue × List Nat)) :
    Nat → List Nat → Option (List (List Nat × BValue) × List Nat)
  | 0, _ => none
  | _ + 1, [] => none
  | n + 1, c :: cs =>
    if c = 101 then some ([], cs)
    else
      match bdecode_str (c :: cs) with
      | none => none
      | some (k, rest) =>
        match dec rest with
        | none => none
        | some (v, rest2) =>
          match bdecode_pairs dec n rest2 with
          | none => none
          | some (kvs, rest3) => some ((k, v) :: kvs, rest3)

/-- Reference decoder for the bencoding grammar: `i<int>e`, `<len>:<bytes>`, `l...e`,
`d...e`. `fuel` bounds the nesting depth. Returns the value and the bytes after it. -/
def bdecode : Nat → List Nat → Option (BValue × List Nat)
  | 0, _ => none
  | _ + 1, [] => none
  | fuel + 1, c :: cs =>
    if c = 105 then
      match bdecode_int cs with
      | none => none
      | some (n, rest) => some (BValue.int n, rest)
    else if c = 108 then
      match bdecode_items (bdecode fuel) (cs.length + 1) cs with
      | none => none
      | some (vs, rest) => some (BValue.list vs, rest)
    else if c = 100 then
      match bdecode_pairs (bdecode fuel) (cs.length + 1) cs with
      | none => none
      | some (kvs, rest) => some (BValue.dict kvs, rest)
    else
      match bdecode_str (c :: cs) with
      | none => none
      | some (s, rest) => some (BValue.str s, rest)

/-! ## Predicates used in the statements -/

/-- No two peers of the list have the same identity (address, port, peer id ignoring case). -/
def distinct_peers (l : List Peer) : Prop := l.Pairwise (fun x y => same_peer x y = false)

/-- The node `update_peer` leaves at the returned position: the candidate with `update` and
`expire` set (lines 125-131). -/
def stored_peer (env : Env) (peer : Peer) (interval : Int) : Peer :=
  { peer with update := env.now, expire := env.expire_at env.now interval }

/-- The peers of a list that a sweep at time `t` keeps: those with `expire >= t`, in order. -/
def survivors (t : Int) (l : List Peer) : List Peer := l.filter (fun p => decide (t ≤ p.expire))

/-- The number of peers of a list whose `expire` is more than 60 seconds after `t`. -/
def active_after (t : Int) (l : List Peer) : Nat :=
  (l.filter (fun p => decide (t + 60 < p.expire))).length

/-- What the sweep at time `t` is to leave of one torrent: nothing when no peer survives,
otherwise the torrent with its surviving peers and the two counters recomputed. -/
def swept (t : Int) (b : Base) : Option Base :=
  if survivors t b.peers = [] then none
  else some ⟨b.infohash, ((survivors t b.peers).length : Int),
             (active_after t (survivors t b.peers) : Int), survivors t b.peers⟩

/-- The number a run of decimal digits denotes, continuing from `a`. -/
def digits_value (ds : List Nat) (a : Nat) : Nat := ds.foldl (fun v c => v * 10 + (c - 48)) a

/-- A decimal integer: an optional sign followed by one or more decimal digits, and nothing
else. -/
def decimal_integer (v : List Nat) : Bool :=
  match v with
  | [] => false
  | c :: u => if c = 45 ∨ c = 43 then (!u.isEmpty && u.all isdigit) else (c :: u).all isdigit

/-- A decimal integer after optional leading white space. -/
def spaced_decimal_integer (v : List Nat) : Bool := decimal_integer (v.dropWhile isspace)

/-- A negative decimal integer after optional leading white space: a minus sign followed by
one or more digits, not all of them `0`. -/
def negative_decimal (v : List Nat) : Bool :=
  match v.dropWhile isspace with
  | [] => false
  | c :: u => c == 45 && !u.isEmpty && u.all isdigit && u.any (fun d => d != 48)

/-- A counter value that is rejected: a negative decimal integer, or a non-empty string that
is not a decimal integer after optional leading white space. -/
def bad_counter (v : List Nat) : Prop :=
  (v ≠ [] ∧ spaced_decimal_integer v = false) ∨ negative_decimal v = true

/-- The identity of a peer: address, port and the peer id with letters in lower case. -/
def ident (p : Peer) : Nat × Int × List Nat := (p.ip, p.port, p.peerid.map tolower)

/-- A torrent as `update_peer` expects it: distinct identities, `cpeers` the number of peers,
`0 <= cuppeers <= cpeers`. -/
def counted_base (b : Base) : Prop :=
  distinct_peers b.peers ∧ b.cpeers = (b.peers.length : Int) ∧ 0 ≤ b.cuppeers ∧
    b.cuppeers ≤ b.cpeers

/-- A well-formed registry: every torrent has distinct identities, `cpeers` equal to the
number of its peers, `0 <= cuppeers <= cpeers` and `cpeers >= 1`; no two torrents have info
hashes that are equal ignoring case. -/
def wf_registry (db : List Base) : Prop :=
  (∀ b ∈ db, counted_base b ∧ 1 ≤ b.cpeers) ∧
    db.Pairwise (fun a b => strcasecmp a.infohash b.infohash ≠ 0)

/-- The fields of a peer an announce supplies for its identity: address, port, peer id. -/
def core (p : Peer) : Nat × Int × List Nat := (p.ip, p.port, p.peerid)

/-- The torrents of a registry whose info hash equals `h` ignoring case. -/
def torrents_of (h : List Nat) (db : List Base) : List Base :=
  db.filter (fun b => strcasecmp h b.infohash == 0)

/-- No peer of the torrent `h` expires during the given requests: at each sweep every peer
stored for `h` has `expire` not before the sweep time. -/
def no_expiry (h : List Nat) : State → List Step → Prop
  | _, [] => True
  | st, a :: as =>
    (∀ b ∈ st.db, strcasecmp h b.infohash = 0 → ∀ p ∈ b.peers, a.curtime ≤ p.expire) ∧
      no_expiry h (announce_request a.env a.curtime a.addr st a.req).1 as

/-- The peers announced so far for `h` are the stored peers of its torrent, in order: there
is no torrent for `h` when nothing was announced, otherwise exactly one, with `cpeers` the
number of its peers. -/
def holds_peers (h : List Nat) (db : List Base) (l : List Peer) : Prop :=
  (l = [] ∧ torrents_of h db = []) ∨
  (l ≠ [] ∧ ∃ b, torrents_of h db = [b] ∧ b.cpeers = (b.peers.length : Int) ∧
    b.peers.map core = l.map core)

/-! ## Sample data -/

/-- An environment: the clock reads 1000, `expire_factor * interval` is `6 * interval / 5`,
no name resolves. -/
def sample_env : Env := ⟨1000, fun u i => u + 6 * i / 5, fun _ => INADDR_NONE, fun _ => none⟩

/-- The peer of scenario S1: 10.0.0.1:6881, `PEER01`. -/
def sample_peer1 : Peer := ⟨s_addr_of 10 0 0 1, 6881, ascii ("PEER01"), 0, 0, 100, 1000, 2080⟩

/-- The peer of scenario S2: 10.0.0.2:6882, `PEER02`. -/
def sample_peer2 : Peer := ⟨s_addr_of 10 0 0 2, 6882, ascii ("PEER02"), 0, 0, 50, 1000, 2080⟩

/-- The torrent `HASH1` after scenario S1. -/
def sample_base1 : Base := ⟨ascii ("HASH1"), 1, 1, [sample_peer1]⟩

/-- The parameter set of scenario S1, sorted by name. -/
def sample_req1 : List Request :=
  [⟨ascii ("compact"), ascii ("1")⟩, ⟨ascii ("downloaded"), ascii ("0")⟩,
   ⟨ascii ("info_hash"), ascii ("HASH1")⟩, ⟨ascii ("left"), ascii ("100")⟩,
   ⟨ascii ("peer_id"), ascii ("PEER01")⟩, ⟨ascii ("port"), ascii ("6881")⟩,
   ⟨ascii ("uploaded"), ascii ("0")⟩]

/-- The parameter set of scenario S2, sorted by name. -/
def sample_req2 : List Request :=
  [⟨ascii ("compact"), ascii ("1")⟩, ⟨ascii ("downloaded"), ascii ("0")⟩,
   ⟨ascii ("info_hash"), ascii ("HASH1")⟩, ⟨ascii ("left"), ascii ("50")⟩,
   ⟨ascii ("peer_id"), ascii ("PEER02")⟩, ⟨ascii ("port"), ascii ("6882")⟩,
   ⟨ascii ("uploaded"), ascii ("0")⟩]

/-- The registry after scenario S1. -/
def sample_state1 : State := ⟨[sample_base1], 900⟩

/-- The local `peer` built from `sample_req2` arriving from 10.0.0.2. -/
def sample_cand2 : Peer := ⟨s_addr_of 10 0 0 2, 6882, ascii ("PEER02"), 0, 0, 50, 0, 0⟩

/-- A peer at 192.168.1.1:6881. -/
def sample_peer_192 : Peer := ⟨s_addr_of 192 168 1 1, 6881, ascii ("PEER03"), 0, 0, 0, 1000, 2080⟩

/-- The peer 10.1.x.y:6881 numbered `i` (x = i / 256, y = i % 256). -/
def sample_peer_nr (i : Nat) : Peer :=
  ⟨s_addr_of 10 1 (i / 256) (i % 256), 6881, ascii ("PEER"), 0, 0, 0, 1000, 2080⟩

/-- A torrent with `n` peers 10.1.x.y:6881, all active. -/
def sample_swarm (n : Nat) : Base :=
  ⟨ascii ("HASH1"), (n : Int), (n : Int), (List.range n).map sample_peer_nr⟩

/-- The parameter set of scenario S1 without `compact` (and without `no_peer_id`). -/
def sample_req_noformat : List Request :=
  [⟨ascii ("downloaded"), ascii ("0")⟩,
   ⟨ascii ("info_hash"), ascii ("HASH1")⟩, ⟨ascii ("left"), ascii ("100")⟩,
   ⟨ascii ("peer_id"), ascii ("PEER01")⟩, ⟨ascii ("port"), ascii ("6881")⟩,
   ⟨ascii ("uploaded"), ascii ("0")⟩]

/-- The parameter set of scenario S1 with `port=4294967297`. -/
def sample_req_bigport : List Request :=
  [⟨ascii ("compact"), ascii ("1")⟩, ⟨ascii ("downloaded"), ascii ("0")⟩,
   ⟨ascii ("info_hash"), ascii ("HASH1")⟩, ⟨ascii ("left"), ascii ("100")⟩,
   ⟨ascii ("peer_id"), ascii ("PEER01")⟩, ⟨ascii ("port"), ascii ("4294967297")⟩,
   ⟨ascii ("uploaded"), ascii ("0")⟩]

/-- A registry of two torrents for the sweep: in `HASH1` one peer expired at 1500 and one
peer expires at 2080, in `HASH2` the only peer expired at 1500. -/
def sample_db_sweep : List Base :=
  [⟨ascii ("HASH1"), 2, 2, [{ sample_peer2 with expire := 1500 }, sample_peer1]⟩,
   ⟨ascii ("HASH2"), 1, 1, [{ sample_peer2 with expire := 1500 }]⟩]

/-- The parameter set of scenario S1 with `uploaded` set to a TAB followed by `5`. -/
def sample_req_tab : List Request :=
  [⟨ascii ("compact"), ascii ("1")⟩, ⟨ascii ("downloaded"), ascii ("0")⟩,
   ⟨ascii ("info_hash"), ascii ("HASH1")⟩, ⟨ascii ("left"), ascii ("100")⟩,
   ⟨ascii ("peer_id"), ascii ("PEER01")⟩, ⟨ascii ("port"), ascii ("6881")⟩,
   ⟨ascii ("uploaded"), ascii ("\t5")⟩]

/-- The parameter set of scenario S1 with an empty `uploaded`. -/
def sample_req_empty : List Request :=
  [⟨ascii ("compact"), ascii ("1")⟩, ⟨ascii ("downloaded"), ascii ("0")⟩,
   ⟨ascii ("info_hash"), ascii ("HASH1")⟩, ⟨ascii ("left"), ascii ("100")⟩,
   ⟨ascii ("peer_id"), ascii ("PEER01")⟩, ⟨ascii ("port"), ascii ("6881")⟩,
   ⟨ascii ("uploaded"), []⟩]

/-- The parameter set of scenario S5: no counters. -/
def sample_req5 : List Request :=
  [⟨ascii ("info_hash"), ascii ("HASH1")⟩, ⟨ascii ("peer_id"), ascii ("PEER01")⟩,
   ⟨ascii ("port"), ascii ("6881")⟩]

/-- The parameter set of scenario S1 with an `info_hash` of 60 bytes. -/
def sample_req_hash60 : List Request :=
  [⟨ascii ("compact"), ascii ("1")⟩, ⟨ascii ("downloaded"), ascii ("0")⟩,
   ⟨ascii ("info_hash"), List.replicate 60 65⟩, ⟨ascii ("left"), ascii ("100")⟩,
   ⟨ascii ("peer_id"), ascii ("PEER01")⟩, ⟨ascii ("port"), ascii ("6881")⟩,
   ⟨ascii ("uploaded"), ascii ("0")⟩]

/-- A torrent `HASH2` with the single peer of scenario S2. -/
def sample_base2 : Base := ⟨ascii ("HASH2"), 1, 1, [sample_peer2]⟩

/-- A registry with the torrents `HASH2` and `HASH1`. -/
def sample_state2 : State := ⟨[sample_base2, sample_base1], 900⟩

/-- The parameter set of scenario S3: as S2 with `no_peer_id` in place of `compact`. -/
def sample_req3 : List Request :=
  [⟨ascii ("downloaded"), ascii ("0")⟩,
   ⟨ascii ("info_hash"), ascii ("HASH1")⟩, ⟨ascii ("left"), ascii ("50")⟩,
   ⟨ascii ("no_peer_id"), ascii ("1")⟩,
   ⟨ascii ("peer_id"), ascii ("PEER02")⟩, ⟨ascii ("port"), ascii ("6882")⟩,
   ⟨ascii ("uploaded"), ascii ("0")⟩]

/-- The torrent `HASH1` whose only peer, 10.0.0.1:6881 `PEER01`, expires at 1030. -/
def sample_base_late : Base := ⟨ascii ("HASH1"), 1, 1, [{ sample_peer1 with expire := 1030 }]⟩

/-- The peer 192.168.100.x:65535 numbered `i` (x = 100 + i). -/
def sample_long_peer (i : Nat) : Peer :=
  ⟨s_addr_of 192 168 100 (100 + i), 65535, ascii ("PEER"), 0, 0, 0, 1000, 2080⟩

/-- A torrent with `n` peers 192.168.100.x:65535, all active. -/
def sample_long_swarm (n : Nat) : Base :=
  ⟨ascii ("HASH1"), (n : Int), (n : Int), (List.range n).map sample_long_peer⟩

/-- The query `a=&c=d`: the first piece has an empty value. -/
def sample_query_empty_value : List Nat := ascii ("a=&c=d")

/-- The query `a&b=c`: the first piece is a bare name. -/
def sample_query_bare_name : List Nat := ascii ("a&b=c")

/-- The request `GET /announce.php?a&b=c HTTP/1.0`. -/
def sample_request_bare_name : List Nat :=
  ascii ("GET /announce.php?a&b=c HTTP/1.0\r\n\r\n")

/-- The request `GET /scrape.php?a=b ` followed by `n` bytes `x` and `\r\n\r\n`: `n + 24`
bytes. -/
def sample_request_padded (n : Nat) : List Nat :=
  ascii ("GET /scrape.php?a=b ") ++ (List.replicate n 120 ++ ascii ("\r\n\r\n"))

/-- The request of scenario S1: sweep and clock at 1000, from 10.0.0.1. -/
def sample_step1 : Step := ⟨sample_env, 1000, s_addr_of 10 0 0 1, sample_req1⟩

/-- The request of scenario S2: sweep and clock at 1000, from 10.0.0.2. -/
def sample_step2 : Step := ⟨sample_env, 1000, s_addr_of 10 0 0 2, sample_req2⟩

/-- The local `peer` built from `sample_req1` arriving from 10.0.0.1. -/
def sample_cand1 : Peer := ⟨s_addr_of 10 0 0 1, 6881, ascii ("PEER01"), 0, 0, 100, 0, 0⟩


/-! ## Auxiliary facts -/

theorem strcasecmp_eq_zero_iff (a b : List Nat) :
    strcasecmp a b = 0 ↔ a.map tolower = b.map tolower := by
  induction a generalizing b with
  | nil => cases b <;> simp [strcasecmp]
  | cons x xs ih =>
    cases b with
    | nil => simp [strcasecmp]
    | cons y ys =>
      by_cases h : tolower x = tolower y
      · simp [strcasecmp, h, ih]
      · by_cases h2 : tolower x < tolower y <;> simp [strcasecmp, h, h2]

theorem same_peer_iff (p q : Peer) :
    same_peer p q = true ↔
      p.ip = q.ip ∧ p.port = q.port ∧ p.peerid.map tolower = q.peerid.map tolower := by
  simp [same_peer, strcasecmp_eq_zero_iff, and_assoc]

theorem same_peer_symm {p q : Peer} (h : same_peer p q = true) : same_peer q p = true := by
  rw [same_peer_iff] at h ⊢
  exact ⟨h.1.symm, h.2.1.symm, h.2.2.symm⟩

theorem same_peer_trans {p q r : Peer} (h1 : same_peer p q = true) (h2 : same_peer q r = true) :
    same_peer p r = true := by
  rw [same_peer_iff] at h1 h2 ⊢
  exact ⟨h1.1.trans h2.1, h1.2.1.trans h2.2.1, h1.2.2.trans h2.2.2⟩

theorem find_peer_none_iff (p : Peer) (l : List Peer) (off : Nat) :
    find_peer p l off = none ↔ ∀ q ∈ l, same_peer p q = false := by
  induction l generalizing off with
  | nil => simp [find_peer]
  | cons x xs ih =>
    by_cases h : same_peer p x = true
    · simp [find_peer, h]
    · simp [find_peer, h, ih]

theorem find_peer_of_distinct (p : Peer) (l : List Peer) (off i : Nat) (q : Peer)
    (hd : distinct_peers l) (hq : l[i]? = some q) (hm : same_peer p q = true) :
    find_peer p l off = some (off + i) := by
  induction l generalizing off i with
  | nil => simp at hq
  | cons x xs ih =>
    cases i with
    | zero =>
      simp at hq
      subst hq
      simp [find_peer, hm]
    | succ k =>
      simp at hq
      have hx : same_peer p x = false := by
        by_contra hc
        have hpx : same_peer p x = true := by simpa using hc
        have hxq : same_peer x q = true := same_peer_trans (same_peer_symm hpx) hm
        have hmem : q ∈ xs := List.getElem?_mem hq
        have := (List.pairwise_cons.mp hd).1 q hmem
        simp [hxq] at this
      have := ih (off + 1) k (List.pairwise_cons.mp hd).2 hq
      simp [find_peer, hx, this]
      omega

theorem find_peer_some (p : Peer) (l : List Peer) (off j : Nat)
    (h : find_peer p l off = some j) :
    off ≤ j ∧ j - off < l.length ∧ ∃ q, l[j - off]? = some q ∧ same_peer p q = true := by
  induction l generalizing off with
  | nil => simp [find_peer] at h
  | cons x xs ih =>
    by_cases hx : same_peer p x = true
    · simp [find_peer, hx] at h
      subst h
      simp [hx]
    · simp [find_peer, hx] at h
      obtain ⟨h1, h2, q, h3, h4⟩ := ih (off + 1) h
      have : j - off = (j - (off + 1)) + 1 := by omega
      refine ⟨by omega, by simp; omega, q, ?_, h4⟩
      rw [this]
      simpa using h3

theorem update_peer_found (env : Env) (b : Base) (p : Peer) (i : Nat)
    (h : find_peer p b.peers 0 = some i) :
    update_peer env b p =
      ⟨⟨b.infohash, b.cpeers, b.cuppeers,
          b.peers.set i (stored_peer env p (compute_interval b.cpeers b.cuppeers))⟩,
        i, compute_interval b.cpeers b.cuppeers⟩ := by
  simp [update_peer, h, stored_peer]

theorem update_peer_new (env : Env) (b : Base) (p : Peer)
    (h : find_peer p b.peers 0 = none) :
    update_peer env b p =
      ⟨⟨b.infohash, b.cpeers + 1, b.cuppeers + 1,
          b.peers ++ [stored_peer env p (compute_interval (b.cpeers + 1) (b.cuppeers + 1))]⟩,
        b.peers.length, compute_interval (b.cpeers + 1) (b.cuppeers + 1)⟩ := by
  simp [update_peer, h, stored_peer]

/-! ## Claims -/

/-- C1 (identity refresh). For a torrent whose peers have pairwise distinct identities and any
candidate: if the stored peer at position `i` has the candidate's address, port and peer id
(ignoring case), `update_peer` leaves `cpeers` and the number of peers unchanged, returns
position `i` and overwrites exactly that entry; if no stored peer has the candidate's
identity, `cpeers` grows by exactly 1 and the candidate becomes the last peer. -/
theorem update_peer_identity_refresh (env : Env) (b : Base) (p : Peer)
    (hd : distinct_peers b.peers) :
    (∀ i q, b.peers[i]? = some q → same_peer p q = true →
        (update_peer env b p).base.cpeers = b.cpeers ∧
        (update_peer env b p).base.peers.length = b.peers.length ∧
        (update_peer env b p).added = i ∧
        (update_peer env b p).base.peers =
          b.peers.set i (stored_peer env p (update_peer env b p).interval)) ∧
    ((∀ q ∈ b.peers, same_peer p q = false) →
        (update_peer env b p).base.cpeers = b.cpeers + 1 ∧
        (update_peer env b p).base.peers.length = b.peers.length + 1 ∧
        (update_peer env b p).added = b.peers.length ∧
        (update_peer env b p).base.peers =
          b.peers ++ [stored_peer env p (update_peer env b p).interval]) := by
  constructor
  · intro i q hq hm
    have hf := find_peer_of_distinct p b.peers 0 i q hd hq hm
    rw [Nat.zero_add] at hf
    rw [update_peer_found env b p i hf]
    simp
  · intro hn
    have hf := (find_peer_none_iff p b.peers 0).mpr hn
    rw [update_peer_new env b p hf]
    simp

theorem update_peer_identity_refresh_witness :
    distinct_peers sample_base1.peers ∧
    (update_peer sample_env sample_base1 sample_peer1).base.cpeers = 1 ∧
    (update_peer sample_env sample_base1 sample_peer1).base.peers.length = 1 ∧
    (update_peer sample_env sample_base1 sample_peer1).added = 0 :=
  ⟨by simp [distinct_peers, sample_base1],
   ((update_peer_identity_refresh sample_env sample_base1 sample_peer1
      (by simp [distinct_peers, sample_base1])).1 0 sample_peer1 rfl (by decide)).1,
   ((update_peer_identity_refresh sample_env sample_base1 sample_peer1
      (by simp [distinct_peers, sample_base1])).1 0 sample_peer1 rfl (by decide)).2.1,
   ((update_peer_identity_refresh sample_env sample_base1 sample_peer1
      (by simp [distinct_peers, sample_base1])).1 0 sample_peer1 rfl (by decide)).2.2.1⟩
theorem compact_loop_past (added : Nat) (l : List Peer) (i : Nat) (h : added < i) :
    compact_loop added l i = l.flatMap compact_record := by
  induction l generalizing i with
  | nil => simp [compact_loop]
  | cons x xs ih =>
    have hne : i ≠ added := by omega
    simp [compact_loop, hne, ih (i + 1) (by omega)]

theorem compact_loop_eq (added : Nat) (l : List Peer) (i : Nat) (h : i ≤ added) :
    compact_loop added l i = (l.eraseIdx (added - i)).flatMap compact_record := by
  induction l generalizing i with
  | nil => simp [compact_loop]
  | cons x xs ih =>
    by_cases he : i = added
    · subst he
      simp [compact_loop, compact_loop_past]
    · have h1 : added - i = (added - (i + 1)) + 1 := by omega
      rw [h1]
      simp [compact_loop, he, ih (i + 1) (by omega)]

theorem nopeerid_loop_past (added : Nat) (l : List Peer) (i : Nat) (h : added < i) :
    nopeerid_loop added l i = l.flatMap nopeerid_record := by
  induction l generalizing i with
  | nil => simp [nopeerid_loop]
  | cons x xs ih =>
    have hne : i ≠ added := by omega
    simp [nopeerid_loop, hne, ih (i + 1) (by omega)]

theorem nopeerid_loop_eq (added : Nat) (l : List Peer) (i : Nat) (h : i ≤ added) :
    nopeerid_loop added l i = (l.eraseIdx (added - i)).flatMap nopeerid_record := by
  induction l generalizing i with
  | nil => simp [nopeerid_loop]
  | cons x xs ih =>
    by_cases he : i = added
    · subst he
      simp [nopeerid_loop, nopeerid_loop_past]
    · have h1 : added - i = (added - (i + 1)) + 1 := by omega
      rw [h1]
      simp [nopeerid_loop, he, ih (i + 1) (by omega)]

theorem find_base_some (h : List Nat) (db : List Base) (off j : Nat)
    (hf : find_base h db off = some j) :
    off ≤ j ∧ j - off < db.length ∧
      ∃ b, db[j - off]? = some b ∧ strcasecmp h b.infohash = 0 := by
  induction db generalizing off with
  | nil => simp [find_base] at hf
  | cons x xs ih =>
    by_cases hx : strcasecmp h x.infohash = 0
    · simp [find_base, hx] at hf
      subst hf
      simp [hx]
    · simp [find_base, hx] at hf
      obtain ⟨h1, h2, b, h3, h4⟩ := ih (off + 1) hf
      have : j - off = (j - (off + 1)) + 1 := by omega
      refine ⟨by omega, by simp; omega, b, ?_, h4⟩
      rw [this]
      simpa using h3

/-- The torrent `search_infohash` returns is a torrent of the registry or a fresh empty one. -/
theorem search_infohash_spec (db : List Base) (h : List Nat) :
    (search_infohash db h).2 < (search_infohash db h).1.length ∧
    ((search_infohash db h).1 = db ∧
        (search_infohash db h).1.getD (search_infohash db h).2 (new_base h) ∈ db ∨
     (search_infohash db h).1 = db ++ [new_base h] ∧ (search_infohash db h).2 = db.length ∧
        (search_infohash db h).1.getD (search_infohash db h).2 (new_base h) = new_base h) := by
  unfold search_infohash
  cases hf : find_base h db 0 with
  | none => simp
  | some j =>
    obtain ⟨_, h2, b, h3, _⟩ := find_base_some h db 0 j hf
    simp at h2 h3
    simp [h2, h3]
    exact List.getElem?_mem h3

theorem update_peer_added_lt (env : Env) (b : Base) (p : Peer) :
    (update_peer env b p).added < (update_peer env b p).base.peers.length := by
  cases hf : find_peer p b.peers 0 with
  | none => rw [update_peer_new env b p hf]; simp
  | some i =>
    rw [update_peer_found env b p i hf]
    have := (find_peer_some p b.peers 0 i hf).2.1
    simpa using this

theorem eraseIdx_set_same {α : Type} (l : List α) (i : Nat) (a : α) :
    (l.set i a).eraseIdx i = l.eraseIdx i := by
  induction l generalizing i with
  | nil => simp
  | cons x xs ih =>
    cases i with
    | zero => simp
    | succ k => simp [ih]

/-- After `update_peer` on a torrent with distinct identities, the returned position holds the
stored candidate and every other peer has an identity different from the candidate's. -/
theorem update_peer_others (env : Env) (b : Base) (p : Peer) (hd : distinct_peers b.peers) :
    (update_peer env b p).base.peers[(update_peer env b p).added]? =
        some (stored_peer env p (update_peer env b p).interval) ∧
    ∀ q ∈ (update_peer env b p).base.peers.eraseIdx (update_peer env b p).added,
        same_peer p q = false := by
  cases hf : find_peer p b.peers 0 with
  | none =>
    rw [update_peer_new env b p hf]
    have hn := (find_peer_none_iff p b.peers 0).mp hf
    refine ⟨by simp, ?_⟩
    simp only []
    rw [List.eraseIdx_append_of_length_le (Nat.le_refl _)]
    simpa using hn
  | some i =>
    rw [update_peer_found env b p i hf]
    obtain ⟨_, hlt, q0, hq0, hm0⟩ := find_peer_some p b.peers 0 i hf
    simp at hlt hq0
    refine ⟨by simp [List.getElem?_set, hlt], ?_⟩
    simp only []
    rw [eraseIdx_set_same]
    intro q hq
    rw [List.mem_eraseIdx_iff_getElem?] at hq
    obtain ⟨j, hji, hj⟩ := hq
    by_contra hc
    have hpq : same_peer p q = true := by simpa using hc
    have h1 := find_peer_of_distinct p b.peers 0 j q hd hj hpq
    rw [hf] at h1
    simp at h1
    exact hji h1.symm

theorem provide_announce_state (env : Env) (addr : Nat) (st : State) (req : List Request)
    (infohash : List Nat) (peer : Peer)
    (hp : parse_announce env addr req = some (infohash, peer)) :
    (provide_announce env addr st req).1 =
      ⟨(search_infohash st.db infohash).1.set (search_infohash st.db infohash).2
          (update_peer env ((search_infohash st.db infohash).1.getD
            (search_infohash st.db infohash).2 (new_base infohash)) peer).base,
       (update_peer env ((search_infohash st.db infohash).1.getD
            (search_infohash st.db infohash).2 (new_base infohash)) peer).interval⟩ := by
  simp only [provide_announce, hp]
  split_ifs <;> rfl

theorem provide_announce_compact (env : Env) (addr : Nat) (st : State) (req : List Request)
    (infohash : List Nat) (peer : Peer)
    (hp : parse_announce env addr req = some (infohash, peer))
    (hc : (lookfor req (ascii ("compact"))).isSome = true) :
    (provide_announce env addr st req).2 =
      [answer, compact_body
        (update_peer env ((search_infohash st.db infohash).1.getD
            (search_infohash st.db infohash).2 (new_base infohash)) peer).interval
        (update_peer env ((search_infohash st.db infohash).1.getD
            (search_infohash st.db infohash).2 (new_base infohash)) peer).base
        (update_peer env ((search_infohash st.db infohash).1.getD
            (search_infohash st.db infohash).2 (new_base infohash)) peer).added] := by
  simp only [provide_announce, hp]
  rw [if_pos hc]

theorem provide_announce_nopeerid (env : Env) (addr : Nat) (st : State) (req : List Request)
    (infohash : List Nat) (peer : Peer)
    (hp : parse_announce env addr req = some (infohash, peer))
    (hc : ¬ (lookfor req (ascii ("compact"))).isSome = true)
    (hn : (lookfor req (ascii ("no_peer_id"))).isSome = true) :
    (provide_announce env addr st req).2 =
      [answer, nopeerid_body
        (update_peer env ((search_infohash st.db infohash).1.getD
            (search_infohash st.db infohash).2 (new_base infohash)) peer).interval
        (update_peer env ((search_infohash st.db infohash).1.getD
            (search_infohash st.db infohash).2 (new_base infohash)) peer).base
        (update_peer env ((search_infohash st.db infohash).1.getD
            (search_infohash st.db infohash).2 (new_base infohash)) peer).added] := by
  simp only [provide_announce, hp]
  rw [if_neg hc, if_pos hn]

theorem provide_announce_noformat (env : Env) (addr : Nat) (st : State) (req : List Request)
    (infohash : List Nat) (peer : Peer)
    (hp : parse_announce env addr req = some (infohash, peer))
    (hc : ¬ (lookfor req (ascii ("compact"))).isSome = true)
    (hn : ¬ (lookfor req (ascii ("no_peer_id"))).isSome = true) :
    (provide_announce env addr st req).2 = [invalid_req] := by
  simp only [provide_announce, hp]
  rw [if_neg hc, if_neg hn]

/-- C2 (self-exclusion). For a registry whose torrents have distinct peer identities and an
accepted announce (the parameter checks pass and `compact` or `no_peer_id` is present), in
either reply form the peers serialised in the body are exactly the torrent's peers after the
update without the entry at the position returned by `update_peer`; that entry is the stored
candidate, and no serialised peer has the candidate's address, port and peer id. -/
theorem announce_reply_excludes_announcer (env : Env) (addr : Nat) (st : State)
    (req : List Request) (infohash : List Nat) (peer : Peer)
    (hwf : ∀ b ∈ st.db, distinct_peers b.peers)
    (hp : parse_announce env addr req = some (infohash, peer))
    (hfmt : (lookfor req (ascii ("compact"))).isSome = true ∨
            (lookfor req (ascii ("no_peer_id"))).isSome = true) :
    let s := search_infohash st.db infohash
    let u := update_peer env (s.1.getD s.2 (new_base infohash)) peer
    let others := u.base.peers.eraseIdx u.added
    (provide_announce env addr st req).2 =
      [answer,
       if (lookfor req (ascii ("compact"))).isSome = true then
         ascii ("d8:intervali") ++ fmt_d u.interval ++ ascii ("e5:peers")
           ++ fmt_d (6 * (u.base.cpeers - 1)) ++ ascii (":")
           ++ others.flatMap compact_record ++ ascii ("e")
       else
         ascii ("d8:intervali") ++ fmt_d u.interval ++ ascii ("e5:peersl")
           ++ others.flatMap nopeerid_record ++ ascii ("ee")] ∧
    (provide_announce env addr st req).1.db[s.2]? = some u.base ∧
    u.base.peers[u.added]? = some (stored_peer env peer u.interval) ∧
    ∀ q ∈ others, ¬ (q.ip = peer.ip ∧ q.port = peer.port ∧
      q.peerid.map tolower = peer.peerid.map tolower) := by
  intro s u others
  have hs := search_infohash_spec st.db infohash
  have hd : distinct_peers (s.1.getD s.2 (new_base infohash)).peers := by
    rcases hs.2 with ⟨_, hm⟩ | ⟨_, _, he⟩
    · exact hwf _ hm
    · show distinct_peers ((search_infohash st.db infohash).1.getD
        (search_infohash st.db infohash).2 (new_base infohash)).peers
      rw [he]
      simp [new_base, distinct_peers]
  have ho := update_peer_others env _ peer hd
  have hid : ∀ q ∈ others, ¬ (q.ip = peer.ip ∧ q.port = peer.port ∧
      q.peerid.map tolower = peer.peerid.map tolower) := by
    intro q hq hsame
    have h1 : same_peer peer q = true :=
      (same_peer_iff peer q).mpr ⟨hsame.1.symm, hsame.2.1.symm, hsame.2.2.symm⟩
    have h2 := ho.2 q hq
    rw [h1] at h2
    exact absurd h2 (by decide)
  refine ⟨?_, ?_, ho.1, hid⟩
  · by_cases hc : (lookfor req (ascii ("compact"))).isSome = true
    · rw [provide_announce_compact env addr st req infohash peer hp hc, if_pos hc]
      unfold compact_body
      rw [compact_loop_eq _ _ 0 (Nat.zero_le _)]
      rfl
    · have hn : (lookfor req (ascii ("no_peer_id"))).isSome = true := by
        rcases hfmt with h | h
        · exact absurd h hc
        · exact h
      rw [provide_announce_nopeerid env addr st req infohash peer hp hc hn, if_neg hc]
      unfold nopeerid_body
      rw [nopeerid_loop_eq _ _ 0 (Nat.zero_le _)]
      rfl
  · rw [provide_announce_state env addr st req infohash peer hp]
    show ((search_infohash st.db infohash).1.set (search_infohash st.db infohash).2 u.base)[
      (search_infohash st.db infohash).2]? = some u.base
    rw [List.getElem?_set]
    simp only [if_true]
    rw [if_pos hs.1]

theorem announce_reply_excludes_announcer_witness :
    (∀ b ∈ sample_state1.db, distinct_peers b.peers) ∧
    parse_announce sample_env (s_addr_of 10 0 0 2) sample_req2
      = some (ascii ("HASH1"), sample_cand2) ∧
    (provide_announce sample_env (s_addr_of 10 0 0 2) sample_state1 sample_req2).2 =
      [answer, ascii ("d8:intervali900e5:peers6:") ++ [10, 0, 0, 1, 26, 225] ++ ascii ("e")] ∧
    ∀ q ∈ (update_peer sample_env sample_base1 sample_cand2).base.peers.eraseIdx
        (update_peer sample_env sample_base1 sample_cand2).added,
      ¬ (q.ip = sample_cand2.ip ∧ q.port = sample_cand2.port ∧
        q.peerid.map tolower = sample_cand2.peerid.map tolower) :=
  ⟨by simp [sample_state1, sample_base1, distinct_peers], by decide, by decide,
   (announce_reply_excludes_announcer sample_env (s_addr_of 10 0 0 2) sample_state1 sample_req2
      (ascii ("HASH1")) sample_cand2
      (by simp [sample_state1, sample_base1, distinct_peers]) (by decide)
      (Or.inl (by decide))).2.2.2⟩

/-- C3 (compact record, failing input). For the peer 192.168.1.1:6881 the six bytes written
are 192, 255, 255, 255, 26, 225 and not 192, 168, 1, 1, 26, 225: the arithmetic right shift
`x>>24` of the negative `int32_t` fills the upper three bytes with ones. A first octet below
128 (10.0.0.1) is written most significant byte first. -/
theorem compact_record_first_octet_192 :
    compact_record sample_peer_192 = [192, 255, 255, 255, 26, 225] ∧
    compact_record sample_peer_192 ≠ [192, 168, 1, 1, 6881 / 256, 6881 % 256] ∧
    compact_record sample_peer1 = [10, 0, 0, 1, 6881 / 256, 6881 % 256] := by
  decide

theorem same_peer_port_ne (p q : Peer) (h : p.port ≠ q.port) : same_peer p q = false := by
  simp [same_peer, h]

theorem compute_interval_ge (c a : Int) : 900 ≤ compute_interval c a := by
  unfold compute_interval min_announce_interval
  simp only []
  split <;> omega

theorem update_peer_interval_ge (env : Env) (b : Base) (p : Peer) :
    900 ≤ (update_peer env b p).interval := by
  unfold update_peer
  exact compute_interval_ge _ _

/-- C5 (interval floor). Whatever the counters of the torrent are, `update_peer` yields an
`announce_interval` of at least 900; and whenever `provide_announce` does not send the
failure body, it sends the header followed by a body that starts with `d8:intervali` and
the decimal form of the global `announce_interval`, which is at least 900. -/
theorem announce_interval_floor (env : Env) (b : Base) (p : Peer) (addr : Nat) (st : State)
    (req : List Request) :
    900 ≤ (update_peer env b p).interval ∧
    ((provide_announce env addr st req).2 ≠ [invalid_req] →
      900 ≤ (provide_announce env addr st req).1.announce_interval ∧
      ∃ rest, (provide_announce env addr st req).2 =
        [answer, ascii ("d8:intervali")
          ++ fmt_d (provide_announce env addr st req).1.announce_interval ++ rest]) := by
  refine ⟨update_peer_interval_ge env b p, ?_⟩
  intro hne
  cases hp : parse_announce env addr req with
  | none => simp [provide_announce, hp] at hne
  | some r =>
    obtain ⟨infohash, peer⟩ := r
    rw [provide_announce_state env addr st req infohash peer hp]
    refine ⟨update_peer_interval_ge env _ peer, ?_⟩
    by_cases hc : (lookfor req (ascii ("compact"))).isSome = true
    · rw [provide_announce_compact env addr st req infohash peer hp hc]
      unfold compact_body
      refine ⟨ascii ("e5:peers") ++ fmt_d (6 * ((update_peer env
        ((search_infohash st.db infohash).1.getD (search_infohash st.db infohash).2
          (new_base infohash)) peer).base.cpeers - 1)) ++ ascii (":") ++ compact_loop
        (update_peer env ((search_infohash st.db infohash).1.getD
          (search_infohash st.db infohash).2 (new_base infohash)) peer).added
        (update_peer env ((search_infohash st.db infohash).1.getD
          (search_infohash st.db infohash).2 (new_base infohash)) peer).base.peers 0
        ++ ascii ("e"), ?_⟩
      simp only [List.append_assoc]
    · by_cases hn : (lookfor req (ascii ("no_peer_id"))).isSome = true
      · rw [provide_announce_nopeerid env addr st req infohash peer hp hc hn]
        unfold nopeerid_body
        refine ⟨ascii ("e5:peersl") ++ nopeerid_loop
          (update_peer env ((search_infohash st.db infohash).1.getD
            (search_infohash st.db infohash).2 (new_base infohash)) peer).added
          (update_peer env ((search_infohash st.db infohash).1.getD
            (search_infohash st.db infohash).2 (new_base infohash)) peer).base.peers 0
          ++ ascii ("ee"), ?_⟩
        simp only [List.append_assoc]
      · exact absurd (provide_announce_noformat env addr st req infohash peer hp hc hn) hne

theorem announce_interval_floor_witness :
    (provide_announce sample_env (s_addr_of 10 0 0 2) sample_state1 sample_req2).2
      ≠ [invalid_req] ∧
    900 ≤ (provide_announce sample_env (s_addr_of 10 0 0 2) sample_state1
      sample_req2).1.announce_interval :=
  ⟨by decide,
   ((announce_interval_floor sample_env sample_base1 sample_cand2 (s_addr_of 10 0 0 2)
      sample_state1 sample_req2).2 (by decide)).1⟩

theorem find_peer_sample_swarm (n : Nat) :
    find_peer sample_cand2 (sample_swarm n).peers 0 = none := by
  rw [find_peer_none_iff]
  intro q hq
  obtain ⟨i, _, rfl⟩ := List.mem_map.mp hq
  exact same_peer_port_ne _ _ (by show (6882 : Int) ≠ 6881; decide)

/-- C6 (interval formula, failing input). Inserting a new peer into a torrent with 5999 peers,
all active, gives `cpeers = cuppeers = 6000`; the product 6000 * 6000 * 60 exceeds the range
of `int`, and the interval set by `update_peer` is 900, whereas
max(floor(6000 * 6000 * 60 / 250000), 900) = 8640. -/
theorem update_peer_interval_at_6000 :
    (update_peer sample_env (sample_swarm 5999) sample_cand2).base.cpeers = 6000 ∧
    (update_peer sample_env (sample_swarm 5999) sample_cand2).base.cuppeers = 6000 ∧
    (update_peer sample_env (sample_swarm 5999) sample_cand2).interval = 900 ∧
    max ((6000 * 6000 * 60 : Int) / 250000) 900 = 8640 := by
  rw [update_peer_new sample_env (sample_swarm 5999) sample_cand2 (find_peer_sample_swarm 5999)]
  refine ⟨?_, ?_, ?_, by decide⟩
  · show ((5999 : Nat) : Int) + 1 = 6000
    decide
  · show ((5999 : Nat) : Int) + 1 = 6000
    decide
  · show compute_interval (((5999 : Nat) : Int) + 1) (((5999 : Nat) : Int) + 1) = 900
    decide

/-- C7 (announce failure, failing input). On the empty registry, the parameters
info_hash=HASH1, peer_id=PEER01, port=6881, uploaded=0, downloaded=0, left=100 without
`compact` and without `no_peer_id` make `provide_announce` send the failure body, yet the
registry afterwards holds the torrent HASH1 with the peer and the interval is 900. -/
theorem announce_without_format_changes_registry :
    (provide_announce sample_env (s_addr_of 10 0 0 1) ⟨[], 0⟩ sample_req_noformat).2
      = [invalid_req] ∧
    (provide_announce sample_env (s_addr_of 10 0 0 1) ⟨[], 0⟩ sample_req_noformat).1
      = ⟨[sample_base1], 900⟩ ∧
    (provide_announce sample_env (s_addr_of 10 0 0 1) ⟨[], 0⟩ sample_req_noformat).1
      ≠ ⟨[], 0⟩ := by
  decide

/-- C8 (port range, failing input). With `port=4294967297` (2^32 + 1, outside 1..65535) and
otherwise valid parameters the announce is accepted: `strtol` returns 4294967297, the `int`
field receives 1, and the peer is stored with port 1. -/
theorem announce_port_4294967297_accepted :
    strtol (ascii ("4294967297")) = (4294967297, []) ∧
    get_port sample_req_bigport = some 1 ∧
    (provide_announce sample_env (s_addr_of 10 0 0 1) ⟨[], 0⟩ sample_req_bigport).2
      = [answer, ascii ("d8:intervali900e5:peers0:e")] ∧
    ((provide_announce sample_env (s_addr_of 10 0 0 1) ⟨[], 0⟩ sample_req_bigport).1.db.map
      (fun b => b.peers.map (fun q => q.port))) = [[1]] := by
  decide

theorem clearbase_loop_eq (t : Int) (l : List Peer) (c u : Int) :
    clearbase_loop t l c u =
      (survivors t l, c - ((l.length : Int) - ((survivors t l).length : Int)),
       u + (active_after t (survivors t l) : Int)) := by
  induction l generalizing c u with
  | nil => simp [clearbase_loop, survivors, active_after]
  | cons x xs ih =>
    by_cases hx : x.expire < t
    · have hk : ¬ t ≤ x.expire := by omega
      simp only [clearbase_loop, hx, if_true, ih]
      simp only [survivors, List.filter_cons, hk, decide_False, List.length_cons]
      simp only [Bool.false_eq_true, if_false, Prod.mk.injEq, true_and]
      constructor
      · push_cast
        omega
      · trivial
    · have hk : t ≤ x.expire := by omega
      simp only [clearbase_loop, hx, if_false, ih]
      simp only [survivors, active_after, List.filter_cons, hk, decide_True, if_true,
        List.length_cons, Prod.mk.injEq, true_and]
      by_cases ha : x.expire - 60 > t
      · have ha2 : t + 60 < x.expire := by omega
        simp only [ha, ha2, if_true, decide_True, List.length_cons]
        constructor
        · push_cast
          omega
        · push_cast
          omega
      · have ha2 : ¬ t + 60 < x.expire := by omega
        simp only [ha, ha2, if_false, decide_False, Bool.false_eq_true]
        constructor
        · push_cast
          omega
        · trivial

theorem clearbase_eq (t : Int) (b : Base) (h : b.cpeers = (b.peers.length : Int)) :
    clearbase b t = ⟨b.infohash, ((survivors t b.peers).length : Int),
      (active_after t (survivors t b.peers) : Int), survivors t b.peers⟩ := by
  unfold clearbase
  rw [clearbase_loop_eq, h]
  simp

/-- C10 (sweep postcondition). For a registry in which `cpeers` is the number of peers of
every torrent and any time `t`, `updatebases` at time `t` leaves, in the original order,
exactly the torrents that keep a peer with `expire >= t`; each of them holds exactly its
peers with `expire >= t` in their original order, `cpeers` is their number and `cuppeers`
the number of them with `expire > t + 60`. In particular no remaining peer has
`expire < t` and no remaining torrent is empty. -/
theorem updatebases_sweep (t : Int) (db : List Base)
    (hwf : ∀ b ∈ db, b.cpeers = (b.peers.length : Int)) :
    updatebases t db = db.filterMap (swept t) ∧
    (∀ b ∈ updatebases t db, b.peers ≠ [] ∧ b.cpeers = (b.peers.length : Int) ∧
      b.cuppeers = (active_after t b.peers : Int) ∧ ∀ p ∈ b.peers, ¬ p.expire < t) := by
  have key : updatebases t db = db.filterMap (swept t) := by
    induction db with
    | nil => simp [updatebases]
    | cons x xs ih =>
      have hx := hwf x (List.mem_cons_self _ _)
      have hxs : ∀ b ∈ xs, b.cpeers = (b.peers.length : Int) :=
        fun b hb => hwf b (List.mem_cons_of_mem _ hb)
      rw [updatebases, clearbase_eq t x hx, ih hxs]
      by_cases he : survivors t x.peers = []
      · simp [swept, he, List.filterMap_cons]
      · simp [swept, he, List.filterMap_cons]
  refine ⟨key, ?_⟩
  rw [key]
  intro b hb
  rw [List.mem_filterMap] at hb
  obtain ⟨a, _, ha⟩ := hb
  unfold swept at ha
  split at ha
  · simp at ha
  · rename_i hne
    simp at ha
    subst ha
    refine ⟨hne, rfl, rfl, ?_⟩
    intro p hp
    simp [survivors] at hp
    omega

theorem updatebases_sweep_witness :
    (∀ b ∈ sample_db_sweep, b.cpeers = (b.peers.length : Int)) ∧
    updatebases 1600 sample_db_sweep = [⟨ascii ("HASH1"), 1, 1, [sample_peer1]⟩] ∧
    updatebases 1600 sample_db_sweep = sample_db_sweep.filterMap (swept 1600) :=
  ⟨by decide, by decide, (updatebases_sweep 1600 sample_db_sweep (by decide)).1⟩

/-! ### Decimal output and input -/

theorem dec_digits_acc (fuel n : Nat) (acc : List Nat) :
    dec_digits fuel n acc = dec_digits fuel n [] ++ acc := by
  induction fuel generalizing n acc with
  | zero => simp [dec_digits]
  | succ f ih =>
    by_cases h : n / 10 = 0
    · simp [dec_digits, h]
    · simp only [dec_digits, h, if_false]
      rw [ih (n / 10) ((48 + n % 10) :: acc), ih (n / 10) [48 + n % 10]]
      simp

theorem dec_digits_ne_nil (fuel n : Nat) : dec_digits (fuel + 1) n [] ≠ [] := by
  by_cases h : n / 10 = 0
  · simp [dec_digits, h]
  · simp only [dec_digits, h, if_false]
    rw [dec_digits_acc]
    simp

theorem dec_digits_isdigit (fuel n : Nat) : ∀ c ∈ dec_digits fuel n [], isdigit c = true := by
  induction fuel generalizing n with
  | zero => simp [dec_digits]
  | succ f ih =>
    have hd : isdigit (48 + n % 10) = true := by
      have : n % 10 < 10 := Nat.mod_lt _ (by decide)
      simp [isdigit]
      omega
    by_cases h : n / 10 = 0
    · simp [dec_digits, h, hd]
    · simp only [dec_digits, h, if_false]
      rw [dec_digits_acc]
      intro c hc
      rcases List.mem_append.mp hc with h1 | h1
      · exact ih _ c h1
      · simp at h1
        rw [h1]
        exact hd

theorem digits_value_append (xs ys : List Nat) (a : Nat) :
    digits_value (xs ++ ys) a = digits_value ys (digits_value xs a) := by
  simp [digits_value, List.foldl_append]

theorem dec_digits_value (fuel n : Nat) (h : n < fuel) (a : Nat) :
    digits_value (dec_digits fuel n []) a = a * 10 ^ (dec_digits fuel n []).length + n := by
  induction fuel generalizing n a with
  | zero => omega
  | succ f ih =>
    by_cases h0 : n / 10 = 0
    · have hn : n % 10 = n := by omega
      simp [dec_digits, h0, digits_value, hn]
    · simp only [dec_digits, h0, if_false]
      rw [dec_digits_acc, digits_value_append, ih (n / 10) (by omega) a]
      simp only [digits_value, List.foldl_cons, List.foldl_nil, List.length_append,
        List.length_singleton, pow_succ]
      have := Nat.div_add_mod n 10
      have e : 48 + n % 10 - 48 = n % 10 := by omega
      rw [e]
      ring_nf
      omega

theorem scan_digits_append (ds rest : List Nat) (a : Nat)
    (hd : ∀ c ∈ ds, isdigit c = true) :
    scan_digits (ds ++ rest) a = scan_digits rest (digits_value ds a) := by
  induction ds generalizing a with
  | nil => simp [digits_value]
  | cons x xs ih =>
    have hx : isdigit x = true := hd x (List.mem_cons_self _ _)
    have := ih (a * 10 + (x - 48)) (fun c hc => hd c (List.mem_cons_of_mem _ hc))
    simp [scan_digits, hx, this, digits_value]

/-- The decimal form `%d` writes for a natural number. -/
theorem fmt_d_nat (n : Nat) : fmt_d (n : Int) = dec_digits (n + 1) n [] := by
  simp [fmt_d]

theorem scan_digits_fmt_d (n stop : Nat) (rest : List Nat) (hs : isdigit stop = false) :
    scan_digits (fmt_d (n : Int) ++ stop :: rest) 0 = (n, stop :: rest) := by
  rw [fmt_d_nat, scan_digits_append _ _ _ (dec_digits_isdigit _ _),
    dec_digits_value _ _ (Nat.lt_succ_self n)]
  simp [scan_digits, hs]

theorem bdecode_nat_fmt_d (n stop : Nat) (rest : List Nat) (hs : isdigit stop = false) :
    bdecode_nat stop (fmt_d (n : Int) ++ stop :: rest) = some (n, rest) := by
  have hsc := scan_digits_fmt_d n stop rest hs
  have hne : fmt_d (n : Int) ≠ [] := by rw [fmt_d_nat]; exact dec_digits_ne_nil _ _
  have hdig : ∀ c ∈ fmt_d (n : Int), isdigit c = true := by
    rw [fmt_d_nat]; exact dec_digits_isdigit _ _
  cases hf : fmt_d (n : Int) with
  | nil => exact absurd hf hne
  | cons c cs =>
    rw [hf] at hsc hdig
    have hc : isdigit c = true := hdig c (List.mem_cons_self _ _)
    simp only [List.cons_append] at hsc ⊢
    simp [bdecode_nat, hc, hsc]

theorem fmt_d_head (n : Nat) : ∃ c cs, fmt_d (n : Int) = c :: cs ∧ isdigit c = true := by
  have hne : fmt_d (n : Int) ≠ [] := by rw [fmt_d_nat]; exact dec_digits_ne_nil _ _
  have hdig : ∀ c ∈ fmt_d (n : Int), isdigit c = true := by
    rw [fmt_d_nat]; exact dec_digits_isdigit _ _
  cases hf : fmt_d (n : Int) with
  | nil => exact absurd hf hne
  | cons c cs =>
    rw [hf] at hdig
    exact ⟨c, cs, rfl, hdig c (List.mem_cons_self _ _)⟩

theorem isdigit_ne {c : Nat} (h : isdigit c = true) :
    c ≠ 45 ∧ c ≠ 100 ∧ c ≠ 101 ∧ c ≠ 105 ∧ c ≠ 108 := by
  simp [isdigit] at h
  omega

/-- Decoding the string `<length>:<bytes>` written with `%d` gives the bytes back. -/
theorem bdecode_str_fmt_d (s rest : List Nat) :
    bdecode_str (fmt_d (s.length : Int) ++ 58 :: (s ++ rest)) = some (s, rest) := by
  unfold bdecode_str
  rw [bdecode_nat_fmt_d _ 58 _ (by decide)]
  simp

/-- Decoding the integer `i<decimal>e` written with `%d` gives the number back. -/
theorem bdecode_int_fmt_d (n : Nat) (rest : List Nat) :
    bdecode_int (fmt_d (n : Int) ++ 101 :: rest) = some ((n : Int), rest) := by
  have h := bdecode_nat_fmt_d n 101 rest (by decide)
  obtain ⟨c, cs, hf, hc⟩ := fmt_d_head n
  rw [hf] at h ⊢
  have h45 : c ≠ 45 := (isdigit_ne hc).1
  simp only [List.cons_append] at h ⊢
  simp [bdecode_int, h45, h]

theorem bdecode_pairs_end (dec : List Nat → Option (BValue × List Nat)) (n : Nat)
    (rest : List Nat) : bdecode_pairs dec (n + 1) (101 :: rest) = some ([], rest) := by
  simp [bdecode_pairs]

theorem bdecode_pairs_step (dec : List Nat → Option (BValue × List Nat)) (n : Nat)
    (key tail rest : List Nat) (v : BValue) (hv : dec tail = some (v, rest)) :
    bdecode_pairs dec (n + 1) (fmt_d (key.length : Int) ++ 58 :: (key ++ tail)) =
      match bdecode_pairs dec n rest with
      | none => none
      | some (kvs, rest3) => some ((key, v) :: kvs, rest3) := by
  have hs := bdecode_str_fmt_d key tail
  obtain ⟨c, cs, hf, hc⟩ := fmt_d_head key.length
  rw [hf] at hs ⊢
  have h101 : c ≠ 101 := (isdigit_ne hc).2.2.1
  simp only [List.cons_append] at hs ⊢
  simp only [bdecode_pairs, h101, if_false, hs, hv]

theorem bdecode_int_value (fuel n : Nat) (rest : List Nat) :
    bdecode (fuel + 1) (105 :: (fmt_d (n : Int) ++ 101 :: rest)) = some (BValue.int n, rest) := by
  simp [bdecode, bdecode_int_fmt_d]

theorem bdecode_str_value (fuel : Nat) (s rest : List Nat) :
    bdecode (fuel + 1) (fmt_d (s.length : Int) ++ 58 :: (s ++ rest)) =
      some (BValue.str s, rest) := by
  have hs := bdecode_str_fmt_d s rest
  obtain ⟨c, cs, hf, hc⟩ := fmt_d_head s.length
  rw [hf] at hs ⊢
  obtain ⟨_, h100, _, h105, h108⟩ := isdigit_ne hc
  simp only [List.cons_append] at hs ⊢
  simp [bdecode, h100, h105, h108, hs]

/-- A dictionary of two entries decodes to these two entries. -/
theorem bdecode_dict_two (fuel : Nat) (k1 k2 t1 t2 rest : List Nat) (v1 v2 : BValue)
    (h1 : bdecode fuel t1 = some (v1, fmt_d (k2.length : Int) ++ 58 :: (k2 ++ t2)))
    (h2 : bdecode fuel t2 = some (v2, 101 :: rest)) :
    bdecode (fuel + 1) (100 :: (fmt_d (k1.length : Int) ++ 58 :: (k1 ++ t1))) =
      some (BValue.dict [(k1, v1), (k2, v2)], rest) := by
  have h3 : 3 ≤ (fmt_d (k1.length : Int) ++ 58 :: (k1 ++ t1)).length + 1 := by
    obtain ⟨c, cs, hf, _⟩ := fmt_d_head k1.length
    rw [hf]
    simp only [List.length_append, List.length_cons]
    omega
  obtain ⟨m, hm⟩ := Nat.exists_eq_add_of_le h3
  simp only [bdecode]
  rw [if_neg (by decide), if_neg (by decide), if_pos trivial, hm, Nat.add_comm 3 m]
  rw [bdecode_pairs_step (bdecode fuel) (m + 2) _ _ _ _ h1]
  rw [bdecode_pairs_step (bdecode fuel) (m + 1) _ _ _ _ h2]
  rw [bdecode_pairs_end]

/-- The bencoded dictionary with the keys `interval` (an integer) and `peers` (a byte string)
decodes to exactly these two entries, nothing left over. -/
theorem bdecode_interval_peers (i : Nat) (blob : List Nat) :
    bdecode 2 (ascii ("d8:intervali") ++ fmt_d (i : Int) ++ ascii ("e5:peers")
        ++ fmt_d (blob.length : Int) ++ ascii (":") ++ blob ++ ascii ("e")) =
      some (BValue.dict [(ascii ("interval"), BValue.int i), (ascii ("peers"), BValue.str blob)],
        []) := by
  have e : ascii ("d8:intervali") ++ fmt_d (i : Int) ++ ascii ("e5:peers")
        ++ fmt_d (blob.length : Int) ++ ascii (":") ++ blob ++ ascii ("e") =
      100 :: (fmt_d (((ascii ("interval")).length : Nat) : Int) ++ 58 :: (ascii ("interval") ++
        (105 :: (fmt_d (i : Int) ++ 101 ::
          (fmt_d (((ascii ("peers")).length : Nat) : Int) ++ 58 :: (ascii ("peers") ++
            (fmt_d (blob.length : Int) ++ 58 :: (blob ++ [101]))))))))  := by
    have e1 : ascii ("d8:intervali") = 100 :: (fmt_d (((ascii ("interval")).length : Nat) : Int)
        ++ 58 :: (ascii ("interval") ++ [105])) := by decide
    have e2 : ascii ("e5:peers") = 101 :: (fmt_d (((ascii ("peers")).length : Nat) : Int)
        ++ 58 :: ascii ("peers")) := by decide
    have e3 : ascii (":") = [58] := by decide
    have e4 : ascii ("e") = [101] := by decide
    rw [e1, e2, e3, e4]
    simp only [List.append_assoc, List.cons_append, List.nil_append, List.singleton_append]
  rw [e]
  exact bdecode_dict_two 1 _ _ _ _ [] _ _ (bdecode_int_value 0 i _) (bdecode_str_value 0 blob [101])

theorem compact_record_length (p : Peer) : (compact_record p).length = 6 := by
  simp [compact_record, store16]

theorem flatMap_compact_length (l : List Peer) :
    (l.flatMap compact_record).length = 6 * l.length := by
  induction l with
  | nil => simp
  | cons x xs ih =>
    simp only [List.flatMap_cons, List.length_append, compact_record_length, ih,
      List.length_cons]
    omega

theorem update_peer_count (env : Env) (b : Base) (p : Peer)
    (h : b.cpeers = (b.peers.length : Int)) :
    (update_peer env b p).base.cpeers = ((update_peer env b p).base.peers.length : Int) := by
  cases hf : find_peer p b.peers 0 with
  | none => rw [update_peer_new env b p hf]; simp [h]
  | some i => rw [update_peer_found env b p i hf]; simp [h]

/-- The blob of the compact reply holds six bytes for every peer but one. -/
theorem compact_blob_length (env : Env) (b : Base) (p : Peer) :
    (compact_loop (update_peer env b p).added (update_peer env b p).base.peers 0).length + 6 =
      6 * (update_peer env b p).base.peers.length := by
  rw [compact_loop_eq _ _ 0 (Nat.zero_le _), flatMap_compact_length, Nat.sub_zero,
    List.length_eraseIdx_of_lt (update_peer_added_lt env b p)]
  have := update_peer_added_lt env b p
  omega

/-- C4 (compact reply round trip). For a registry in which `cpeers` is the number of peers of
every torrent and an accepted announce with `compact` present, the body sent is
`d8:intervali<interval>e5:peers<N>:<blob>e`, where the number `N` printed and the number of
blob bytes are both `6 * (cpeers - 1)` for `cpeers` after the update; this body decodes under
the bencoding grammar to the dictionary of exactly the two keys `interval` and `peers`, with
no byte left over. -/
theorem compact_reply_roundtrip (env : Env) (addr : Nat) (st : State)
    (req : List Request) (infohash : List Nat) (peer : Peer)
    (hwf : ∀ b ∈ st.db, b.cpeers = (b.peers.length : Int))
    (hp : parse_announce env addr req = some (infohash, peer))
    (hc : (lookfor req (ascii ("compact"))).isSome = true) :
    let s := search_infohash st.db infohash
    let u := update_peer env (s.1.getD s.2 (new_base infohash)) peer
    let blob := compact_loop u.added u.base.peers 0
    let body := ascii ("d8:intervali") ++ fmt_d u.interval ++ ascii ("e5:peers")
        ++ fmt_d (6 * (u.base.cpeers - 1)) ++ ascii (":") ++ blob ++ ascii ("e")
    (provide_announce env addr st req).2 = [answer, body] ∧
    (provide_announce env addr st req).1.db[s.2]? = some u.base ∧
    (provide_announce env addr st req).1.announce_interval = u.interval ∧
    (blob.length : Int) = 6 * (u.base.cpeers - 1) ∧
    bdecode 2 body =
      some (BValue.dict [(ascii ("interval"), BValue.int u.interval),
                         (ascii ("peers"), BValue.str blob)], []) := by
  intro s u blob body
  have hs := search_infohash_spec st.db infohash
  have hb : (s.1.getD s.2 (new_base infohash)).cpeers =
      ((s.1.getD s.2 (new_base infohash)).peers.length : Int) := by
    rcases hs.2 with ⟨_, hm⟩ | ⟨_, _, he⟩
    · exact hwf _ hm
    · show ((search_infohash st.db infohash).1.getD
        (search_infohash st.db infohash).2 (new_base infohash)).cpeers = _
      rw [he]
      simp [new_base]
  have hcnt : u.base.cpeers = (u.base.peers.length : Int) := update_peer_count env _ peer hb
  have hblob : blob.length + 6 = 6 * u.base.peers.length := compact_blob_length env _ peer
  have hN : 6 * (u.base.cpeers - 1) = (blob.length : Int) := by
    rw [hcnt]
    omega
  have hI : u.interval = ((u.interval.toNat : Nat) : Int) := by
    have := update_peer_interval_ge env (s.1.getD s.2 (new_base infohash)) peer
    have h0 : 0 ≤ u.interval := by
      show 0 ≤ (update_peer env (s.1.getD s.2 (new_base infohash)) peer).interval
      omega
    exact (Int.toNat_of_nonneg h0).symm
  refine ⟨?_, ?_, ?_, hN.symm, ?_⟩
  · rw [provide_announce_compact env addr st req infohash peer hp hc]
    rfl
  · rw [provide_announce_state env addr st req infohash peer hp]
    show ((search_infohash st.db infohash).1.set (search_infohash st.db infohash).2 u.base)[
      (search_infohash st.db infohash).2]? = some u.base
    rw [List.getElem?_set]
    simp only [if_true]
    rw [if_pos hs.1]
  · rw [provide_announce_state env addr st req infohash peer hp]
  · show bdecode 2 (ascii ("d8:intervali") ++ fmt_d u.interval ++ ascii ("e5:peers")
        ++ fmt_d (6 * (u.base.cpeers - 1)) ++ ascii (":") ++ blob ++ ascii ("e")) = _
    rw [hN, hI]
    exact bdecode_interval_peers _ blob

theorem compact_reply_roundtrip_witness :
    (∀ b ∈ sample_state1.db, b.cpeers = (b.peers.length : Int)) ∧
    parse_announce sample_env (s_addr_of 10 0 0 2) sample_req2
      = some (ascii ("HASH1"), sample_cand2) ∧
    (lookfor sample_req2 (ascii ("compact"))).isSome = true ∧
    (provide_announce sample_env (s_addr_of 10 0 0 2) sample_state1 sample_req2).2 =
      [answer, ascii ("d8:intervali900e5:peers6:") ++ [10, 0, 0, 1, 26, 225] ++ ascii ("e")] ∧
    bdecode 2 (ascii ("d8:intervali900e5:peers6:") ++ [10, 0, 0, 1, 26, 225] ++ ascii ("e")) =
      some (BValue.dict [(ascii ("interval"), BValue.int 900),
                         (ascii ("peers"), BValue.str [10, 0, 0, 1, 26, 225])], []) :=
  ⟨by decide, by decide, by decide,
   (compact_reply_roundtrip sample_env (s_addr_of 10 0 0 2) sample_state1 sample_req2
      (ascii ("HASH1")) sample_cand2 (by decide) (by decide) (by decide)).1,
   (compact_reply_roundtrip sample_env (s_addr_of 10 0 0 2) sample_state1 sample_req2
      (ascii ("HASH1")) sample_cand2 (by decide) (by decide) (by decide)).2.2.2.2⟩

/-! ### `strtol` and the decimal grammar -/

theorem skip_space_eq (v : List Nat) : skip_space v = v.dropWhile isspace := by
  induction v with
  | nil => simp [skip_space]
  | cons x xs ih =>
    by_cases h : isspace x = true
    · simp [skip_space, List.dropWhile_cons, h, ih]
    · simp [skip_space, List.dropWhile_cons, h]

theorem scan_digits_rest_nil (u : List Nat) (a : Nat) (h : (scan_digits u a).2 = []) :
    u.all isdigit = true := by
  induction u generalizing a with
  | nil => simp
  | cons x xs ih =>
    by_cases hx : isdigit x = true
    · simp only [scan_digits, hx, if_true] at h
      simp [hx]
      simpa using ih _ h
    · simp [scan_digits, hx] at h

theorem scan_digits_all (u : List Nat) (a : Nat) (h : u.all isdigit = true) :
    scan_digits u a = (digits_value u a, []) := by
  have := scan_digits_append u [] a (by simpa using h)
  simpa [scan_digits] using this

theorem strtol_digits_rest_nil (neg : Bool) (u : List Nat) (r : Int × List Nat)
    (h : strtol_digits neg u = some r) (hr : r.2 = []) :
    u ≠ [] ∧ u.all isdigit = true := by
  cases u with
  | nil => simp [strtol_digits] at h
  | cons c cs =>
    by_cases hc : isdigit c = true
    · simp only [strtol_digits, hc, if_true, Option.some.injEq] at h
      subst h
      exact ⟨by simp, scan_digits_rest_nil _ _ hr⟩
    · simp [strtol_digits, hc] at h

/-- When `strtol` leaves nothing unread, the string is empty or a decimal integer after
optional white space. -/
theorem strtol_rest_nil (v : List Nat) (h : (strtol v).2 = []) :
    v = [] ∨ spaced_decimal_integer v = true := by
  unfold strtol at h
  rw [skip_space_eq] at h
  unfold spaced_decimal_integer
  cases hd : v.dropWhile isspace with
  | nil =>
    rw [hd] at h
    simp at h
    exact Or.inl h
  | cons c u =>
    rw [hd] at h
    simp only [] at h
    by_cases h45 : c = 45
    · simp only [h45, if_true] at h
      cases hs : strtol_digits true u with
      | none =>
        rw [hs] at h
        exact Or.inl h
      | some r =>
        rw [hs] at h
        obtain ⟨h1, h2⟩ := strtol_digits_rest_nil true u r hs h
        right
        cases u with
        | nil => exact absurd rfl h1
        | cons d ds => simp [decimal_integer, h45, h2]
    · by_cases h43 : c = 43
      · simp only [h43, if_true, if_false] at h
        rw [if_neg (by decide)] at h
        cases hs : strtol_digits false u with
        | none =>
          rw [hs] at h
          exact Or.inl h
        | some r =>
          rw [hs] at h
          obtain ⟨h1, h2⟩ := strtol_digits_rest_nil false u r hs h
          right
          cases u with
          | nil => exact absurd rfl h1
          | cons d ds => simp [decimal_integer, h43, h2]
      · simp only [h45, h43, if_false] at h
        cases hs : strtol_digits false (c :: u) with
        | none =>
          rw [hs] at h
          exact Or.inl h
        | some r =>
          rw [hs] at h
          obtain ⟨_, h2⟩ := strtol_digits_rest_nil false (c :: u) r hs h
          right
          simp only [decimal_integer, h45, h43, or_self, if_false]
          exact h2

theorem digits_value_pos (u : List Nat) (a : Nat)
    (h : 0 < a ∨ ∃ c ∈ u, isdigit c = true ∧ c ≠ 48) : 0 < digits_value u a := by
  induction u generalizing a with
  | nil =>
    rcases h with h | ⟨c, hc, _⟩
    · simpa [digits_value] using h
    · simp at hc
  | cons x xs ih =>
    have step : digits_value (x :: xs) a = digits_value xs (a * 10 + (x - 48)) := by
      simp [digits_value]
    rw [step]
    apply ih
    rcases h with h | ⟨c, hc, hd, hne⟩
    · left; omega
    · rcases List.mem_cons.mp hc with rfl | hm
      · left
        simp [isdigit] at hd
        omega
      · right; exact ⟨c, hm, hd, hne⟩

theorem clamp64_neg (x : Int) (h : x < 0) : clamp64 x < 0 := by
  unfold clamp64 LONG_MAX LONG_MIN
  split
  · omega
  · split <;> omega

/-- For a negative decimal integer `strtol` returns a negative number. -/
theorem strtol_negative (v : List Nat) (h : negative_decimal v = true) : (strtol v).1 < 0 := by
  unfold negative_decimal at h
  unfold strtol
  rw [skip_space_eq]
  cases hd : v.dropWhile isspace with
  | nil => rw [hd] at h; simp at h
  | cons c u =>
    rw [hd] at h
    simp only [Bool.and_eq_true, beq_iff_eq, Bool.not_eq_true', List.all_eq_true,
      List.any_eq_true, bne_iff_ne, ne_eq] at h
    obtain ⟨⟨⟨h45, hne⟩, hall⟩, d, hd1, hd2⟩ := h
    cases u with
    | nil => simp at hne
    | cons e es =>
      have he : isdigit e = true := hall e (List.mem_cons_self _ _)
      have hall2 : (e :: es).all isdigit = true := by simpa using hall
      have hpos : 0 < digits_value (e :: es) 0 :=
        digits_value_pos _ _ (Or.inr ⟨d, hd1, hall d hd1, hd2⟩)
      simp only [h45, if_true, strtol_digits, he, scan_digits_all _ _ hall2]
      apply clamp64_neg
      omega

theorem get_counter_none_of_bad (req : List Request) (name : List Nat) (r : Request)
    (hl : lookfor req name = some r) (hb : bad_counter r.value) :
    get_counter req name = none := by
  have : (strtol r.value).2 ≠ [] ∨ (strtol r.value).1 < 0 := by
    rcases hb with ⟨hne, hs⟩ | hn
    · left
      intro h0
      rcases strtol_rest_nil _ h0 with h1 | h1
      · exact hne h1
      · rw [hs] at h1
        exact absurd h1 (by decide)
    · right
      exact strtol_negative _ hn
  simp [get_counter, hl, this]

theorem get_string_none_of_long (req : List Request) (name : List Nat) (size : Nat)
    (r : Request) (hl : lookfor req name = some r) (hb : r.value.length > size) :
    get_string req name size = none := by
  simp [get_string, hl, hb]

theorem parse_announce_none (env : Env) (addr : Nat) (req : List Request)
    (h : get_string req (ascii ("info_hash")) SIZE_INFOHASH = none ∨ get_port req = none ∨
         get_string req (ascii ("peer_id")) SIZE_PEERID = none ∨
         get_counter req (ascii ("uploaded")) = none ∨
         get_counter req (ascii ("downloaded")) = none ∨
         get_counter req (ascii ("left")) = none) :
    parse_announce env addr req = none := by
  unfold parse_announce
  cases h1 : get_string req (ascii ("info_hash")) SIZE_INFOHASH <;>
  cases h2 : get_port req <;>
  cases h3 : get_string req (ascii ("peer_id")) SIZE_PEERID <;>
  cases h4 : get_counter req (ascii ("uploaded")) <;>
  cases h5 : get_counter req (ascii ("downloaded")) <;>
  cases h6 : get_counter req (ascii ("left")) <;>
  simp_all

/-- C9 as stated fails. With `uploaded` set to a TAB followed by `5`, or to the empty string,
the counter is not a decimal integer, yet `provide_announce` does not send the failure body:
it sends the header and `d8:intervali900e5:peers0:e` (`strtoll` skips leading white space,
and for a string without digits it returns 0 and leaves `end` at the terminating NUL). -/
theorem announce_counter_not_decimal_accepted :
    (lookfor sample_req_tab (ascii ("uploaded")) = some ⟨ascii ("uploaded"), ascii ("\t5")⟩ ∧
     decimal_integer (ascii ("\t5")) = false ∧
     (provide_announce sample_env (s_addr_of 10 0 0 1) ⟨[], 0⟩ sample_req_tab).2
       ≠ [invalid_req] ∧
     (provide_announce sample_env (s_addr_of 10 0 0 1) ⟨[], 0⟩ sample_req_tab).2
       = [answer, ascii ("d8:intervali900e5:peers0:e")]) ∧
    (lookfor sample_req_empty (ascii ("uploaded")) = some ⟨ascii ("uploaded"), []⟩ ∧
     decimal_integer [] = false ∧
     (provide_announce sample_env (s_addr_of 10 0 0 1) ⟨[], 0⟩ sample_req_empty).2
       = [answer, ascii ("d8:intervali900e5:peers0:e")]) := by
  decide

/-- C9 (failure reply), with the condition on counters made precise. If one of `info_hash`, `peer_id`, `port`, `uploaded`,
`downloaded`, `left` is absent (names compared as `lookfor` does), or `info_hash` or `peer_id`
is longer than 60 bytes, or a counter is a negative decimal integer or a non-empty string that
is not a decimal integer after optional leading white space, then `provide_announce` sends
exactly the failure body and nothing before it. A string parameter of at most 60 bytes
passes the length check. The failure body is `d14:` key `69:` value `e` with a key of 14 and
a value of 69 bytes, and decodes to the dictionary with the single key `failure reason`. -/
theorem announce_failure_reply (env : Env) (addr : Nat) (st : State) (req : List Request) :
    ((lookfor req (ascii ("info_hash")) = none ∨ lookfor req (ascii ("peer_id")) = none ∨
      lookfor req (ascii ("port")) = none ∨ lookfor req (ascii ("uploaded")) = none ∨
      lookfor req (ascii ("downloaded")) = none ∨ lookfor req (ascii ("left")) = none ∨
      (∃ r, lookfor req (ascii ("info_hash")) = some r ∧ r.value.length > 60) ∨
      (∃ r, lookfor req (ascii ("peer_id")) = some r ∧ r.value.length > 60) ∨
      (∃ r, lookfor req (ascii ("uploaded")) = some r ∧ bad_counter r.value) ∨
      (∃ r, lookfor req (ascii ("downloaded")) = some r ∧ bad_counter r.value) ∨
      (∃ r, lookfor req (ascii ("left")) = some r ∧ bad_counter r.value)) →
      (provide_announce env addr st req).2 = [invalid_req]) ∧
    (∀ name r, lookfor req name = some r → r.value.length ≤ 60 →
      get_string req name 60 = some r.value) ∧
    invalid_req = ascii ("d14:") ++ ascii ("failure reason") ++ ascii ("69:")
      ++ ascii ("invalid request (see http://bitconjurer.org/BitTorrent/protocol.html)")
      ++ ascii ("e") ∧
    (ascii ("failure reason")).length = 14 ∧
    (ascii ("invalid request (see http://bitconjurer.org/BitTorrent/protocol.html)")).length
      = 69 ∧
    bdecode 2 invalid_req = some (BValue.dict [(ascii ("failure reason"), BValue.str
      (ascii ("invalid request (see http://bitconjurer.org/BitTorrent/protocol.html)")))],
      []) := by
  refine ⟨?_, ?_, by decide, by decide, by decide, by rfl⟩
  · intro h
    have hp : parse_announce env addr req = none := by
      apply parse_announce_none
      rcases h with h | h | h | h | h | h | ⟨r, h, hl⟩ | ⟨r, h, hl⟩ | ⟨r, h, hb⟩ | ⟨r, h, hb⟩ |
        ⟨r, h, hb⟩
      · left; simp [get_string, h]
      · right; right; left; simp [get_string, h]
      · right; left; simp [get_port, h]
      · right; right; right; left; simp [get_counter, h]
      · right; right; right; right; left; simp [get_counter, h]
      · right; right; right; right; right; simp [get_counter, h]
      · left; exact get_string_none_of_long _ _ _ r h hl
      · right; right; left; exact get_string_none_of_long _ _ _ r h hl
      · right; right; right; left; exact get_counter_none_of_bad _ _ r h hb
      · right; right; right; right; left; exact get_counter_none_of_bad _ _ r h hb
      · right; right; right; right; right; exact get_counter_none_of_bad _ _ r h hb
    simp [provide_announce, hp]
  · intro name r hl hlen
    have : ¬ r.value.length > 60 := by omega
    simp [get_string, hl, this]

theorem announce_failure_reply_witness :
    lookfor sample_req5 (ascii ("uploaded")) = none ∧
    (provide_announce sample_env (s_addr_of 10 0 0 1) ⟨[], 0⟩ sample_req5).2 = [invalid_req] ∧
    get_string sample_req_hash60 (ascii ("info_hash")) 60 = some (List.replicate 60 65) ∧
    (provide_announce sample_env (s_addr_of 10 0 0 1) ⟨[], 0⟩ sample_req_hash60).2
      = [answer, ascii ("d8:intervali900e5:peers0:e")] :=
  ⟨by decide,
   (announce_failure_reply sample_env (s_addr_of 10 0 0 1) ⟨[], 0⟩ sample_req5).1
     (Or.inr (Or.inr (Or.inr (Or.inl (by decide))))),
   (announce_failure_reply sample_env (s_addr_of 10 0 0 1) ⟨[], 0⟩ sample_req_hash60).2.1
     (ascii ("info_hash")) ⟨ascii ("info_hash"), List.replicate 60 65⟩ (by decide) (by decide),
   by decide⟩

/-- When a parameter check fails (`goto error` before line 285), the registry and the
interval are untouched and the failure body is the only thing sent. -/
theorem provide_announce_invalid_params (env : Env) (addr : Nat) (st : State)
    (req : List Request) (h : parse_announce env addr req = none) :
    provide_announce env addr st req = (st, [invalid_req]) := by
  simp [provide_announce, h]

/-- While the product fits an `int`, the interval is the formula of the specification. -/
theorem compute_interval_in_range (c a : Int) (h0 : 0 ≤ c * a) (h1 : c * a * 60 < 2147483648) :
    compute_interval c a = max (c * a * 60 / 250000) 900 := by
  have e1 : wrap32 (c * a) = c * a := by
    unfold wrap32
    generalize c * a = x at h0 h1 ⊢
    split <;> omega
  have e2 : wrap32 (c * a * 60) = c * a * 60 := by
    unfold wrap32
    generalize c * a = x at h0 h1 ⊢
    split <;> omega
  unfold compute_interval max_announce_rate min_announce_interval
  simp only [e1, e2]
  rw [Int.tdiv_eq_ediv (by omega) (by decide)]
  generalize c * a = x at h0 h1 ⊢
  simp only [show (500 : Int) * 500 = 250000 by decide]
  split <;> omega

/-- The boundary values of `port`: `0` and `65536` are rejected, `1` and `65535` accepted. -/
theorem get_port_boundaries :
    get_port [⟨ascii ("port"), ascii ("0")⟩] = none ∧
    get_port [⟨ascii ("port"), ascii ("65536")⟩] = none ∧
    get_port [⟨ascii ("port"), ascii ("1")⟩] = some 1 ∧
    get_port [⟨ascii ("port"), ascii ("65535")⟩] = some 65535 := by
  decide

/-! ### The torrent an announce works on -/

theorem find_base_none_iff (h : List Nat) (db : List Base) (off : Nat) :
    find_base h db off = none ↔ ∀ b ∈ db, strcasecmp h b.infohash ≠ 0 := by
  induction db generalizing off with
  | nil => simp [find_base]
  | cons x xs ih =>
    by_cases hx : strcasecmp h x.infohash = 0
    · simp [find_base, hx]
    · simp [find_base, hx, ih]

theorem update_peer_infohash (env : Env) (b : Base) (p : Peer) :
    (update_peer env b p).base.infohash = b.infohash := by
  cases hf : find_peer p b.peers 0 with
  | none => rw [update_peer_new env b p hf]
  | some i => rw [update_peer_found env b p i hf]

theorem search_infohash_found (db : List Base) (h : List Nat) (i : Nat)
    (hf : find_base h db 0 = some i) :
    search_infohash db h = (db, i) ∧ i < db.length ∧
      ∃ b, db[i]? = some b ∧ strcasecmp h b.infohash = 0 ∧ db.getD i (new_base h) = b := by
  obtain ⟨_, h2, b, h3, h4⟩ := find_base_some h db 0 i hf
  simp only [Nat.sub_zero] at h2 h3
  refine ⟨by simp [search_infohash, hf], h2, b, h3, h4, ?_⟩
  simp [h3]

theorem search_infohash_absent (db : List Base) (h : List Nat)
    (hf : find_base h db 0 = none) :
    search_infohash db h = (db ++ [new_base h], db.length) ∧
      (db ++ [new_base h]).getD db.length (new_base h) = new_base h := by
  refine ⟨by simp [search_infohash, hf], ?_⟩
  simp

/-- The registry after an accepted set of parameters: the torrent found is replaced by its
update, or the update of a fresh torrent is appended. -/
theorem provide_announce_db (env : Env) (addr : Nat) (st : State) (req : List Request)
    (infohash : List Nat) (peer : Peer)
    (hp : parse_announce env addr req = some (infohash, peer)) :
    (∃ i b, find_base infohash st.db 0 = some i ∧ st.db[i]? = some b ∧
        strcasecmp infohash b.infohash = 0 ∧
        (search_infohash st.db infohash).1.getD (search_infohash st.db infohash).2
          (new_base infohash) = b ∧
        (provide_announce env addr st req).1.db = st.db.set i (update_peer env b peer).base) ∨
    (find_base infohash st.db 0 = none ∧
        (search_infohash st.db infohash).1.getD (search_infohash st.db infohash).2
          (new_base infohash) = new_base infohash ∧
        (provide_announce env addr st req).1.db =
          st.db ++ [(update_peer env (new_base infohash) peer).base]) := by
  rw [provide_announce_state env addr st req infohash peer hp]
  cases hf : find_base infohash st.db 0 with
  | some i =>
    left
    obtain ⟨hs, _, b, hb, hm, hg⟩ := search_infohash_found st.db infohash i hf
    refine ⟨i, b, rfl, hb, hm, ?_, ?_⟩
    · rw [hs]; exact hg
    · rw [hs]
      show st.db.set i (update_peer env (st.db.getD i (new_base infohash)) peer).base = _
      rw [hg]
  | none =>
    right
    obtain ⟨hs, hg⟩ := search_infohash_absent st.db infohash hf
    refine ⟨rfl, ?_, ?_⟩
    · rw [hs]; exact hg
    · rw [hs]
      show (st.db ++ [new_base infohash]).set st.db.length (update_peer env
        ((st.db ++ [new_base infohash]).getD st.db.length (new_base infohash)) peer).base = _
      rw [hg, List.set_append_right _ _ (Nat.le_refl _)]
      simp

theorem filter_set_of_not {α : Type} (p : α → Bool) (l : List α) (i : Nat) (a b : α)
    (hb : l[i]? = some b) (h1 : p b = false) (h2 : p a = false) :
    (l.set i a).filter p = l.filter p := by
  induction l generalizing i with
  | nil => simp
  | cons x xs ih =>
    cases i with
    | zero =>
      simp at hb
      subst hb
      simp [List.filter_cons, h1, h2]
    | succ k =>
      simp at hb
      simp [List.filter_cons, ih k hb]

/-- C20 (announce frame). For every registry and every accepted set of announce parameters
for the info hash `infohash`, each torrent whose info hash differs from it ignoring case
stays in its position with the same peers and counters, and the sequence of these torrents
is the same before and after; the registry afterwards is the old one with the torrent found
replaced by its update, or with the update of a fresh torrent appended at the end. -/
theorem announce_frame (env : Env) (addr : Nat) (st : State) (req : List Request)
    (infohash : List Nat) (peer : Peer)
    (hp : parse_announce env addr req = some (infohash, peer)) :
    (∀ (j : Nat) (b : Base), st.db[j]? = some b → strcasecmp infohash b.infohash ≠ 0 →
      (provide_announce env addr st req).1.db[j]? = some b) ∧
    (provide_announce env addr st req).1.db.filter
        (fun b => strcasecmp infohash b.infohash != 0) =
      st.db.filter (fun b => strcasecmp infohash b.infohash != 0) ∧
    ((∃ i b, st.db[i]? = some b ∧ strcasecmp infohash b.infohash = 0 ∧
        (provide_announce env addr st req).1.db = st.db.set i (update_peer env b peer).base) ∨
     ((∀ b ∈ st.db, strcasecmp infohash b.infohash ≠ 0) ∧
        (provide_announce env addr st req).1.db =
          st.db ++ [(update_peer env (new_base infohash) peer).base])) := by
  rcases provide_announce_db env addr st req infohash peer hp with
    ⟨i, b, _, hb, hm, _, hdb⟩ | ⟨hf, _, hdb⟩
  · refine ⟨?_, ?_, Or.inl ⟨i, b, hb, hm, hdb⟩⟩
    · intro j b' hj hne
      have hij : i ≠ j := by
        intro e
        subst e
        rw [hb] at hj
        simp at hj
        subst hj
        exact hne hm
      rw [hdb, List.getElem?_set_ne hij]
      exact hj
    · rw [hdb]
      apply filter_set_of_not _ _ _ _ b hb
      · simp [hm]
      · simp [update_peer_infohash, hm]
  · have hall := (find_base_none_iff infohash st.db 0).mp hf
    refine ⟨?_, ?_, Or.inr ⟨hall, hdb⟩⟩
    · intro j b' hj _
      have hlt : j < st.db.length := by
        rcases Nat.lt_or_ge j st.db.length with h | h
        · exact h
        · rw [List.getElem?_eq_none h] at hj
          simp at hj
      rw [hdb, List.getElem?_append_left hlt]
      exact hj
    · rw [hdb, List.filter_append]
      have hself : strcasecmp infohash infohash = 0 :=
        (strcasecmp_eq_zero_iff _ _).mpr rfl
      simp [update_peer_infohash, new_base, hself]

theorem announce_frame_witness :
    parse_announce sample_env (s_addr_of 10 0 0 2) sample_req2
      = some (ascii ("HASH1"), sample_cand2) ∧
    sample_state2.db[0]? = some sample_base2 ∧
    strcasecmp (ascii ("HASH1")) sample_base2.infohash ≠ 0 ∧
    (provide_announce sample_env (s_addr_of 10 0 0 2) sample_state2 sample_req2).1.db[0]?
      = some sample_base2 :=
  ⟨by decide, by decide, by decide,
   (announce_frame sample_env (s_addr_of 10 0 0 2) sample_state2 sample_req2
      (ascii ("HASH1")) sample_cand2 (by decide)).1 0 sample_base2 (by decide) (by decide)⟩

theorem inet_ntoa_dotted (o1 o2 o3 o4 : Nat) (h1 : o1 < 256) (h2 : o2 < 256) (h3 : o3 < 256)
    (h4 : o4 < 256) :
    inet_ntoa (s_addr_of o1 o2 o3 o4) =
      fmt_d (o1 : Int) ++ ascii (".") ++ fmt_d (o2 : Int) ++ ascii (".") ++ fmt_d (o3 : Int)
        ++ ascii (".") ++ fmt_d (o4 : Int) := by
  have e1 : s_addr_of o1 o2 o3 o4 % 256 = o1 := by unfold s_addr_of; omega
  have e2 : s_addr_of o1 o2 o3 o4 / 256 % 256 = o2 := by unfold s_addr_of; omega
  have e3 : s_addr_of o1 o2 o3 o4 / 65536 % 256 = o3 := by unfold s_addr_of; omega
  have e4 : s_addr_of o1 o2 o3 o4 / 16777216 % 256 = o4 := by unfold s_addr_of; omega
  unfold inet_ntoa
  rw [e1, e2, e3, e4]

/-- C12 (dictionary-list serialisation). For an accepted set of announce parameters: without
`compact` and with `no_peer_id` the body is `d8:intervali`, the decimal interval, `e5:peersl`,
then for each peer of the torrent other than the announcing one, in stored order, `d2:ip`,
the decimal length of the dotted address, `:`, the dotted address, `4:porti`, the decimal
port, `ee`, and finally `ee`; the dotted address of `o1.o2.o3.o4` is the four numbers in
decimal separated by dots. With `compact` present the compact body is produced, whether or
not `no_peer_id` is present. -/
theorem nopeerid_reply_format (env : Env) (addr : Nat) (st : State) (req : List Request)
    (infohash : List Nat) (peer : Peer)
    (hp : parse_announce env addr req = some (infohash, peer)) :
    let s := search_infohash st.db infohash
    let u := update_peer env (s.1.getD s.2 (new_base infohash)) peer
    let others := u.base.peers.eraseIdx u.added
    ((lookfor req (ascii ("compact"))).isSome = false →
     (lookfor req (ascii ("no_peer_id"))).isSome = true →
      (provide_announce env addr st req).2 =
        [answer, ascii ("d8:intervali") ++ fmt_d u.interval ++ ascii ("e5:peersl")
          ++ others.flatMap (fun p => ascii ("d2:ip") ++ fmt_d ((inet_ntoa p.ip).length : Nat)
              ++ ascii (":") ++ inet_ntoa p.ip ++ ascii ("4:porti") ++ fmt_d p.port
              ++ ascii ("ee"))
          ++ ascii ("ee")]) ∧
    ((lookfor req (ascii ("compact"))).isSome = true →
      (provide_announce env addr st req).2 = [answer, compact_body u.interval u.base u.added]) ∧
    (provide_announce env addr st req).1.announce_interval = u.interval ∧
    (∀ o1 o2 o3 o4 : Nat, o1 < 256 → o2 < 256 → o3 < 256 → o4 < 256 →
      inet_ntoa (s_addr_of o1 o2 o3 o4) =
        fmt_d (o1 : Int) ++ ascii (".") ++ fmt_d (o2 : Int) ++ ascii (".") ++ fmt_d (o3 : Int)
          ++ ascii (".") ++ fmt_d (o4 : Int)) := by
  intro s u others
  refine ⟨?_, ?_, ?_, inet_ntoa_dotted⟩
  · intro hc hn
    have hc2 : ¬ (lookfor req (ascii ("compact"))).isSome = true := by simp [hc]
    rw [provide_announce_nopeerid env addr st req infohash peer hp hc2 hn]
    unfold nopeerid_body
    rw [nopeerid_loop_eq _ _ 0 (Nat.zero_le _)]
    rfl
  · intro hc
    exact provide_announce_compact env addr st req infohash peer hp hc
  · rw [provide_announce_state env addr st req infohash peer hp]

theorem nopeerid_reply_format_witness :
    parse_announce sample_env (s_addr_of 10 0 0 2) sample_req3
      = some (ascii ("HASH1"), sample_cand2) ∧
    (provide_announce sample_env (s_addr_of 10 0 0 2) sample_state1 sample_req3).2 =
      [answer, ascii ("d8:intervali900e5:peersld2:ip8:10.0.0.14:porti6881eeee")] :=
  ⟨by decide,
   ((nopeerid_reply_format sample_env (s_addr_of 10 0 0 2) sample_state1 sample_req3
      (ascii ("HASH1")) sample_cand2 (by decide)).1 (by decide) (by decide)).trans
      (by decide)⟩

/-- C17 (meaning of `cuppeers`, failing input). The torrent holds one peer that expires 30
seconds after `now` = 1000. The sweep at 1000 keeps it and sets `cuppeers` to 0; the same
peer announces again at 1000 and is refreshed to expire at 2080: `cuppeers` is still 0 and
0 is what the interval formula receives, although one peer now expires more than 60 seconds
after `now`. -/
theorem refresh_leaves_cuppeers_behind :
    (clearbase sample_base_late 1000).peers = sample_base_late.peers ∧
    (clearbase sample_base_late 1000).cuppeers = 0 ∧
    (update_peer sample_env (clearbase sample_base_late 1000) sample_peer1).base.peers
      = [sample_peer1] ∧
    (update_peer sample_env (clearbase sample_base_late 1000) sample_peer1).base.cuppeers = 0 ∧
    active_after 1000
      (update_peer sample_env (clearbase sample_base_late 1000) sample_peer1).base.peers = 1 ∧
    (announce_request sample_env 1000 (s_addr_of 10 0 0 1) ⟨[sample_base_late], 900⟩
      sample_req1).1.db = [⟨ascii ("HASH1"), 1, 0, [sample_peer1]⟩] := by
  decide

theorem find_peer_sample_long_swarm (n : Nat) :
    find_peer sample_cand2 (sample_long_swarm n).peers 0 = none := by
  rw [find_peer_none_iff]
  intro q hq
  obtain ⟨i, _, rfl⟩ := List.mem_map.mp hq
  exact same_peer_port_ne _ _ (by show (6882 : Int) ≠ 65535; decide)

theorem flatMap_length_const {α : Type} (f : α → List Nat) (k : Nat) (l : List α)
    (h : ∀ a ∈ l, (f a).length = k) : (l.flatMap f).length = k * l.length := by
  induction l with
  | nil => simp
  | cons x xs ih =>
    simp only [List.flatMap_cons, List.length_append, List.length_cons,
      h x (List.mem_cons_self _ _), ih (fun a ha => h a (List.mem_cons_of_mem _ ha))]
    rw [Nat.mul_succ]
    omega

theorem sample_long_record_length : ∀ i, i < 61 →
    (nopeerid_record (sample_long_peer i)).length = 37 := by
  decide

/-- C19 (buffer of the dictionary-list reply, failing input). A torrent holds 61 peers
192.168.100.100 .. 192.168.100.160, all on port 65535, and a 62nd peer announces with
`no_peer_id`. Each of the 61 dictionaries takes 37 bytes, so the body written into the
buffer has 12 + 3 + 9 + 61 * 37 + 2 = 2283 bytes, one more than the
`NOPEERID_SIZE * cpeers + 50` = 36 * 62 + 50 = 2282 bytes allocated. -/
theorem nopeerid_body_exceeds_buffer :
    (update_peer sample_env (sample_long_swarm 61) sample_cand2).base.cpeers = 62 ∧
    (nopeerid_body (update_peer sample_env (sample_long_swarm 61) sample_cand2).interval
      (update_peer sample_env (sample_long_swarm 61) sample_cand2).base
      (update_peer sample_env (sample_long_swarm 61) sample_cand2).added).length = 2283 ∧
    36 * (update_peer sample_env (sample_long_swarm 61) sample_cand2).base.cpeers + 50 = 2282 ∧
    (nopeerid_record (sample_long_peer 0)).length = 37 := by
  rw [update_peer_new sample_env (sample_long_swarm 61) sample_cand2
    (find_peer_sample_long_swarm 61)]
  have hc : (sample_long_swarm 61).cpeers + 1 = 62 := by
    show ((61 : Nat) : Int) + 1 = 62
    decide
  have hi : compute_interval ((sample_long_swarm 61).cpeers + 1)
      ((sample_long_swarm 61).cuppeers + 1) = 900 := by
    show compute_interval (((61 : Nat) : Int) + 1) (((61 : Nat) : Int) + 1) = 900
    decide
  have hl : (sample_long_swarm 61).peers.length = 61 := by
    show ((List.range 61).map sample_long_peer).length = 61
    simp
  have hrec : ∀ p ∈ (sample_long_swarm 61).peers, (nopeerid_record p).length = 37 := by
    intro p hp
    obtain ⟨i, hi, rfl⟩ := List.mem_map.mp hp
    exact sample_long_record_length i (List.mem_range.mp hi)
  refine ⟨hc, ?_, by rw [hc]; decide, sample_long_record_length 0 (by decide)⟩
  simp only []
  unfold nopeerid_body
  rw [nopeerid_loop_eq _ _ 0 (Nat.zero_le _), Nat.sub_zero,
    List.eraseIdx_append_of_length_le (Nat.le_refl _), hi]
  simp only [Nat.sub_self, List.eraseIdx_cons_zero, List.append_nil, List.length_append,
    flatMap_length_const nopeerid_record 37 _ hrec, hl]
  decide

/-! ### The query parser -/

/-- C13 (query splitting, failing input). For the query `a=&c=d`, two pieces that each hold
an `=`, the parameter set built is the single pair (`a`, `c=d`) and not the two pairs
(`a`, empty) and (`c`, `d`): `strtok` skips the `&` that follows the `=` directly and takes
the next piece as the value. For `a=b&c=d` the set is (`a`, `b`), (`c`, `d`). -/
theorem parse_query_empty_value :
    parse_query sample_query_empty_value = some [⟨ascii ("a"), ascii ("c=d")⟩] ∧
    parse_query sample_query_empty_value ≠
      some [⟨ascii ("a"), []⟩, ⟨ascii ("c"), ascii ("d")⟩] ∧
    parse_query (ascii ("a=b&c=d")) =
      some [⟨ascii ("a"), ascii ("b")⟩, ⟨ascii ("c"), ascii ("d")⟩] := by
  decide

/-- C14 (bare name, failing input). For the query `a&b=c`, whose first piece holds no `=`,
the parser does not fail: it yields the single parameter named `a&b` with value `c`. The
request `GET /announce.php?a&b=c HTTP/1.0` therefore reaches the sweep (the expired torrent
is removed from the registry) and `provide_announce` (the failure body is sent). A trailing
bare name (`b=c&a`) and the empty query do fail. -/
theorem parse_query_bare_name :
    parse_query sample_query_bare_name = some [⟨ascii ("a&b"), ascii ("c")⟩] ∧
    proceed sample_env 1600 (s_addr_of 10 0 0 1) (Recv.data sample_request_bare_name) false
      ⟨[sample_base_late], 900⟩ = (⟨[], 900⟩, [invalid_req]) ∧
    parse_query (ascii ("b=c&a")) = none ∧
    parse_query [] = none := by
  decide

theorem proceed_buffer_full (env : Env) (curtime : Int) (addr : Nat) (bytes : List Nat)
    (alrm_was : Bool) (st : State) (h : 2048 ≤ bytes.length) :
    proceed env curtime addr (Recv.data bytes) alrm_was st = (st, []) := by
  have hl : (bytes.take 2048).length = 2048 := by
    rw [List.length_take]
    omega
  simp only [proceed, HTTP_BUFFER_SIZE, hl, Nat.sub_self, if_true]

theorem sample_request_padded_length (n : Nat) : (sample_request_padded n).length = n + 24 := by
  have h1 : (ascii ("GET /scrape.php?a=b ")).length = 20 := by decide
  have h2 : (ascii ("\r\n\r\n")).length = 4 := by decide
  simp only [sample_request_padded, List.length_append, List.length_replicate, h1, h2]
  omega

theorem sample_request_padded_terminated (n : Nat) :
    terminated (sample_request_padded n) = true := by
  have hl := sample_request_padded_length n
  have h1 : (ascii ("GET /scrape.php?a=b ")).length = 20 := by decide
  have e : sample_request_padded n =
      (ascii ("GET /scrape.php?a=b ") ++ List.replicate n 120) ++ ascii ("\r\n\r\n") := by
    simp [sample_request_padded]
  have hd : (sample_request_padded n).drop ((sample_request_padded n).length - 4)
      = ascii ("\r\n\r\n") := by
    rw [hl, e]
    apply List.drop_left'
    simp [h1]
    omega
  unfold terminated
  rw [hd, hl]
  have : (4 ≤ n + 24) := by omega
  simp [this]
  decide

theorem sample_request_padded_dispatch (env : Env) (curtime : Int) (addr : Nat) (n : Nat)
    (st : State) :
    dispatch env curtime addr (sample_request_padded n) st =
      (⟨updatebases curtime st.db, st.announce_interval⟩, [notfound]) := by
  rfl

theorem proceed_data (env : Env) (curtime : Int) (addr : Nat) (bytes : List Nat)
    (st : State) (h1 : bytes.length < 2048) (h2 : terminated bytes = true) :
    proceed env curtime addr (Recv.data bytes) false st = dispatch env curtime addr bytes st := by
  have ht : bytes.take HTTP_BUFFER_SIZE = bytes := List.take_of_length_le (by
    show bytes.length ≤ 2048
    omega)
  have hz : ¬ (HTTP_BUFFER_SIZE - bytes.length = 0) := by
    show ¬ (2048 - bytes.length = 0)
    omega
  unfold proceed
  simp only []
  rw [ht, if_neg hz, h2]
  rfl

theorem proceed_sample_request_padded (env : Env) (curtime : Int) (addr : Nat) (n : Nat)
    (st : State) (h : n + 24 < 2048) :
    proceed env curtime addr (Recv.data (sample_request_padded n)) false st =
      (⟨updatebases curtime st.db, st.announce_interval⟩, [notfound]) := by
  rw [proceed_data env curtime addr _ st (by rw [sample_request_padded_length]; exact h)
    (sample_request_padded_terminated n)]
  exact sample_request_padded_dispatch env curtime addr n st

/-- The size boundary of the reader in examples. The request `GET /scrape.php?a=b `, 2024
bytes `x`, `\r\n\r\n` has exactly 2048 bytes, starts with `GET ` and ends with `\r\n\r\n`;
`proceed` drops it without a reply and without touching the registry, since `left` reaches 0
(line 424). So does it drop every other request of 2048 bytes, and every request of 2049
bytes, of which `recv` takes the first 2048. The same request with one
`x` less, 2047 bytes, is handed on: the registry is swept and the scrape reply is sent. -/
theorem request_of_2048_bytes_dropped (env : Env) (curtime : Int) (addr : Nat) (st : State) :
    (sample_request_padded 2024).length = 2048 ∧
    starts_with (ascii ("GET ")) (sample_request_padded 2024) = true ∧
    terminated (sample_request_padded 2024) = true ∧
    proceed env curtime addr (Recv.data (sample_request_padded 2024)) false st = (st, []) ∧
    (∀ f : Fin 2048 → Nat,
      proceed env curtime addr (Recv.data (List.ofFn f)) false st = (st, [])) ∧
    (∀ f : Fin 2049 → Nat,
      proceed env curtime addr (Recv.data (List.ofFn f)) false st = (st, [])) ∧
    (sample_request_padded 2023).length = 2047 ∧
    proceed env curtime addr (Recv.data (sample_request_padded 2023)) false st =
      (⟨updatebases curtime st.db, st.announce_interval⟩, [notfound]) := by
  refine ⟨sample_request_padded_length 2024, rfl, sample_request_padded_terminated 2024,
    ?_, ?_, ?_, sample_request_padded_length 2023, ?_⟩
  · exact proceed_buffer_full env curtime addr _ false st
      (by rw [sample_request_padded_length])
  · intro f
    exact proceed_buffer_full env curtime addr _ false st (by rw [List.length_ofFn])
  · intro f
    exact proceed_buffer_full env curtime addr _ false st (by rw [List.length_ofFn]; decide)
  · exact proceed_sample_request_padded env curtime addr 2023 st (by decide)

/-! ### The registry invariant -/

theorem same_peer_false_iff (p q : Peer) : same_peer p q = false ↔ ident p ≠ ident q := by
  have h := same_peer_iff p q
  have e : ident p = ident q ↔
      (p.ip = q.ip ∧ p.port = q.port ∧ p.peerid.map tolower = q.peerid.map tolower) := by
    simp [ident, Prod.ext_iff]
  rw [ne_eq, e, ← h]
  simp

theorem distinct_peers_iff (l : List Peer) :
    distinct_peers l ↔ (l.map ident).Pairwise (fun a b => a ≠ b) := by
  rw [List.pairwise_map]
  unfold distinct_peers
  constructor
  · exact List.Pairwise.imp (fun h => (same_peer_false_iff _ _).mp h)
  · exact List.Pairwise.imp (fun h => (same_peer_false_iff _ _).mpr h)

theorem map_set_same {α β : Type} (f : α → β) (l : List α) (i : Nat) (q x : α)
    (hq : l[i]? = some q) (hx : f x = f q) : (l.set i x).map f = l.map f := by
  induction l generalizing i with
  | nil => simp
  | cons y ys ih =>
    cases i with
    | zero =>
      simp at hq
      subst hq
      simp [hx]
    | succ k =>
      simp at hq
      simp [ih k hq]

theorem ident_stored_peer (env : Env) (p : Peer) (i : Int) :
    ident (stored_peer env p i) = ident p := rfl

/-- `update_peer` keeps the identities distinct and the counters in step; afterwards the
torrent has at least one peer. -/
theorem update_peer_counted (env : Env) (b : Base) (p : Peer) (h : counted_base b) :
    counted_base (update_peer env b p).base ∧ 1 ≤ (update_peer env b p).base.cpeers := by
  obtain ⟨hd, hc, h0, hu⟩ := h
  have hcnt := update_peer_count env b p hc
  have hlt := update_peer_added_lt env b p
  cases hf : find_peer p b.peers 0 with
  | none =>
    rw [update_peer_new env b p hf] at hcnt hlt ⊢
    have hn := (find_peer_none_iff p b.peers 0).mp hf
    refine ⟨⟨?_, hcnt, ?_, ?_⟩, ?_⟩
    · show distinct_peers (b.peers ++ [stored_peer env p _])
      unfold distinct_peers
      rw [List.pairwise_append]
      refine ⟨hd, by simp, ?_⟩
      intro a ha c hc2
      simp at hc2
      subst hc2
      rw [same_peer_false_iff, ident_stored_peer]
      have := (same_peer_false_iff p a).mp (hn a ha)
      exact fun e => this e.symm
    · show 0 ≤ b.cuppeers + 1
      omega
    · show b.cuppeers + 1 ≤ b.cpeers + 1
      omega
    · show 1 ≤ b.cpeers + 1
      rw [hc]
      omega
  | some i =>
    rw [update_peer_found env b p i hf] at hcnt hlt ⊢
    obtain ⟨_, hi, q, hq, hm⟩ := find_peer_some p b.peers 0 i hf
    simp only [Nat.sub_zero] at hi hq
    refine ⟨⟨?_, hcnt, h0, hu⟩, ?_⟩
    · show distinct_peers (b.peers.set i (stored_peer env p _))
      rw [distinct_peers_iff, map_set_same ident b.peers i q _ hq]
      · exact (distinct_peers_iff _).mp hd
      · rw [ident_stored_peer]
        by_contra hne
        have := (same_peer_false_iff p q).mpr hne
        rw [hm] at this
        exact absurd this (by decide)
    · show 1 ≤ b.cpeers
      rw [hc]
      omega

theorem updatebases_eq_filterMap (t : Int) (db : List Base)
    (hwf : ∀ b ∈ db, b.cpeers = (b.peers.length : Int)) :
    updatebases t db = db.filterMap (swept t) := by
  induction db with
  | nil => simp [updatebases]
  | cons x xs ih =>
    have hx := hwf x (List.mem_cons_self _ _)
    have hxs : ∀ b ∈ xs, b.cpeers = (b.peers.length : Int) :=
      fun b hb => hwf b (List.mem_cons_of_mem _ hb)
    rw [updatebases, clearbase_eq t x hx, ih hxs]
    by_cases he : survivors t x.peers = []
    · simp [swept, he, List.filterMap_cons]
    · simp [swept, he, List.filterMap_cons]

theorem swept_some (t : Int) (b c : Base) (h : swept t b = some c) :
    c.infohash = b.infohash ∧ c.peers = survivors t b.peers ∧ c.peers ≠ [] ∧
      c.cpeers = (c.peers.length : Int) ∧ c.cuppeers = (active_after t c.peers : Int) := by
  unfold swept at h
  split at h
  · simp at h
  · rename_i hne
    simp at h
    subst h
    exact ⟨rfl, rfl, hne, rfl, rfl⟩

theorem active_after_le (t : Int) (l : List Peer) : active_after t l ≤ l.length :=
  List.length_filter_le _ _

/-- The sweep keeps a well-formed registry well-formed. -/
theorem updatebases_wf (t : Int) (db : List Base) (h : wf_registry db) :
    wf_registry (updatebases t db) := by
  obtain ⟨hb, hp⟩ := h
  rw [updatebases_eq_filterMap t db (fun b hm => (hb b hm).1.2.1)]
  constructor
  · intro c hc
    obtain ⟨b, hm, hs⟩ := List.mem_filterMap.mp hc
    obtain ⟨_, h2, h3, h4, h5⟩ := swept_some t b c hs
    obtain ⟨⟨hd, _, _, _⟩, _⟩ := hb b hm
    have hlen : 1 ≤ c.peers.length := by
      cases hpe : c.peers with
      | nil => exact absurd hpe h3
      | cons _ _ => simp
    have hact := active_after_le t c.peers
    refine ⟨⟨?_, h4, ?_, ?_⟩, ?_⟩
    · rw [h2]
      exact List.Pairwise.sublist (List.filter_sublist _) hd
    · rw [h5]; omega
    · rw [h5, h4]; omega
    · rw [h4]; omega
  · apply List.Pairwise.filterMap (swept t) _ hp
    intro a a2 hne c hc c2 hc2
    rw [(swept_some t a c hc).1, (swept_some t a2 c2 hc2).1]
    exact hne

theorem strcasecmp_symm_ne (a b : List Nat) (h : strcasecmp a b ≠ 0) : strcasecmp b a ≠ 0 := by
  intro e
  apply h
  rw [strcasecmp_eq_zero_iff] at e ⊢
  exact e.symm

theorem counted_new_base (h : List Nat) : counted_base (new_base h) := by
  simp [counted_base, new_base, distinct_peers]

/-- `provide_announce` keeps a well-formed registry well-formed, whether it sends a reply or
the failure body. -/
theorem provide_announce_wf (env : Env) (addr : Nat) (st : State) (req : List Request)
    (h : wf_registry st.db) : wf_registry (provide_announce env addr st req).1.db := by
  cases hp : parse_announce env addr req with
  | none =>
    rw [provide_announce_invalid_params env addr st req hp]
    exact h
  | some r =>
    obtain ⟨infohash, peer⟩ := r
    obtain ⟨hb, hpw⟩ := h
    rcases provide_announce_db env addr st req infohash peer hp with
      ⟨i, b, _, hbi, hm, _, hdb⟩ | ⟨hf, _, hdb⟩
    · rw [hdb]
      have hbm : b ∈ st.db := List.getElem?_mem hbi
      have hu := update_peer_counted env b peer (hb b hbm).1
      constructor
      · intro c hc
        rcases List.mem_or_eq_of_mem_set hc with h1 | h1
        · exact hb c h1
        · rw [h1]; exact hu
      · have e : (st.db.set i (update_peer env b peer).base).map (fun x => x.infohash) =
            st.db.map (fun x => x.infohash) :=
          map_set_same (fun x => x.infohash) st.db i b _ hbi (update_peer_infohash env b peer)
        have h1 : (st.db.map (fun x => x.infohash)).Pairwise
            (fun a c => strcasecmp a c ≠ 0) := List.pairwise_map.mpr hpw
        rw [← e] at h1
        exact List.pairwise_map.mp h1
    · rw [hdb]
      have hall := (find_base_none_iff infohash st.db 0).mp hf
      have hu := update_peer_counted env (new_base infohash) peer (counted_new_base infohash)
      constructor
      · intro c hc
        rcases List.mem_append.mp hc with h1 | h1
        · exact hb c h1
        · simp at h1
          rw [h1]; exact hu
      · rw [List.pairwise_append]
        refine ⟨hpw, by simp, ?_⟩
        intro a ha c hc
        simp at hc
        subst hc
        rw [update_peer_infohash]
        exact strcasecmp_symm_ne _ _ (hall a ha)

theorem announce_request_wf (env : Env) (curtime : Int) (addr : Nat) (st : State)
    (req : List Request) (h : wf_registry st.db) :
    wf_registry (announce_request env curtime addr st req).1.db :=
  provide_announce_wf env addr ⟨updatebases curtime st.db, st.announce_interval⟩ req
    (updatebases_wf curtime st.db h)

theorem run_wf (st : State) (steps : List Step) (h : wf_registry st.db) :
    wf_registry (run st steps).db := by
  induction steps generalizing st with
  | nil => exact h
  | cons a as ih => exact ih _ (announce_request_wf a.env a.curtime a.addr st a.req h)

/-- C18 (registry invariant). In every state reached from the empty registry by a sequence
of requests, each a sweep (at any time, in particular at non-decreasing times) followed by
`provide_announce` with any parameters (accepted or not): no two peers of a torrent have the
same address, port and peer id ignoring case; `cpeers` is the number of peers of the torrent;
`0 <= cuppeers <= cpeers`; `cpeers >= 1`; and no two torrents have info hashes equal
ignoring case. -/
theorem reachable_registry_wf (steps : List Step) (interval0 : Int) :
    (∀ b ∈ (run ⟨[], interval0⟩ steps).db,
      b.peers.Pairwise (fun x y => ¬ (x.ip = y.ip ∧ x.port = y.port ∧
        x.peerid.map tolower = y.peerid.map tolower)) ∧
      b.cpeers = (b.peers.length : Int) ∧ 0 ≤ b.cuppeers ∧ b.cuppeers ≤ b.cpeers ∧
      1 ≤ b.cpeers) ∧
    (run ⟨[], interval0⟩ steps).db.Pairwise
      (fun a b => a.infohash.map tolower ≠ b.infohash.map tolower) := by
  have h0 : wf_registry (⟨[], interval0⟩ : State).db := by
    simp [wf_registry]
  obtain ⟨hb, hp⟩ := run_wf ⟨[], interval0⟩ steps h0
  constructor
  · intro b hm
    obtain ⟨⟨hd, hc, h1, h2⟩, h3⟩ := hb b hm
    refine ⟨?_, hc, h1, h2, h3⟩
    refine List.Pairwise.imp ?_ hd
    intro x y hxy hsame
    have := (same_peer_iff x y).mpr hsame
    rw [hxy] at this
    exact absurd this (by decide)
  · refine List.Pairwise.imp ?_ hp
    intro a b hne e
    exact hne ((strcasecmp_eq_zero_iff _ _).mpr e)

/-! ### Order of the stored peers -/

theorem same_peer_core (p q q2 : Peer) (h : core q = core q2) :
    same_peer p q = same_peer p q2 := by
  simp only [core, Prod.mk.injEq] at h
  simp [same_peer, h.1, h.2.1, h.2.2]

theorem compact_record_core (q q2 : Peer) (h : core q = core q2) :
    compact_record q = compact_record q2 := by
  simp only [core, Prod.mk.injEq] at h
  simp [compact_record, h.1, h.2.1]

theorem nopeerid_record_core (q q2 : Peer) (h : core q = core q2) :
    nopeerid_record q = nopeerid_record q2 := by
  simp only [core, Prod.mk.injEq] at h
  simp [nopeerid_record, h.1, h.2.1]

theorem flatMap_core (f : Peer → List Nat) (hf : ∀ q q2, core q = core q2 → f q = f q2)
    (l l2 : List Peer) (h : l.map core = l2.map core) : l.flatMap f = l2.flatMap f := by
  induction l generalizing l2 with
  | nil =>
    cases l2 with
    | nil => rfl
    | cons _ _ => simp at h
  | cons x xs ih =>
    cases l2 with
    | nil => simp at h
    | cons y ys =>
      simp only [List.map_cons, List.cons.injEq] at h
      simp only [List.flatMap_cons, hf x y h.1, ih ys h.2]

theorem not_same_of_core (p : Peer) (l l2 : List Peer) (h : l.map core = l2.map core)
    (hn : ∀ c ∈ l2, same_peer p c = false) : ∀ q ∈ l, same_peer p q = false := by
  intro q hq
  have hm : core q ∈ l2.map core := by
    rw [← h]
    exact List.mem_map_of_mem core hq
  obtain ⟨c, hc, hcq⟩ := List.mem_map.mp hm
  rw [same_peer_core p q c hcq.symm]
  exact hn c hc

theorem clearbase_infohash (b : Base) (t : Int) : (clearbase b t).infohash = b.infohash := rfl

theorem torrents_of_updatebases (h : List Nat) (t : Int) (db : List Base) :
    torrents_of h (updatebases t db) = updatebases t (torrents_of h db) := by
  induction db with
  | nil => simp [torrents_of, updatebases]
  | cons x xs ih =>
    unfold torrents_of at ih ⊢
    by_cases hm : strcasecmp h x.infohash = 0
    · by_cases hz : (clearbase x t).cpeers = 0
      · simp [updatebases, List.filter_cons, hm, hz, ih]
      · simp [updatebases, List.filter_cons, hm, hz, ih, clearbase_infohash]
    · by_cases hz : (clearbase x t).cpeers = 0
      · simp [updatebases, List.filter_cons, hm, hz, ih]
      · simp [updatebases, List.filter_cons, hm, hz, ih, clearbase_infohash]

theorem survivors_all (t : Int) (l : List Peer) (h : ∀ p ∈ l, t ≤ p.expire) :
    survivors t l = l := by
  unfold survivors
  rw [List.filter_eq_self]
  intro a ha
  simpa using h a ha

/-- A sweep in which no peer of the torrent for `h` expires leaves its stored peers as they
are. -/
theorem holds_peers_updatebases (h : List Nat) (t : Int) (db : List Base) (l : List Peer)
    (hh : holds_peers h db l)
    (hx : ∀ b ∈ db, strcasecmp h b.infohash = 0 → ∀ p ∈ b.peers, t ≤ p.expire) :
    holds_peers h (updatebases t db) l := by
  rcases hh with ⟨hl, ht⟩ | ⟨hl, b, ht, hc, hm⟩
  · left
    refine ⟨hl, ?_⟩
    rw [torrents_of_updatebases, ht]
    rfl
  · right
    have hb : b ∈ torrents_of h db := by rw [ht]; simp
    have hb2 := List.mem_filter.mp hb
    have hmatch : strcasecmp h b.infohash = 0 := by simpa using hb2.2
    have hsurv : survivors t b.peers = b.peers := survivors_all t b.peers (hx b hb2.1 hmatch)
    have hne : b.peers ≠ [] := by
      intro e
      rw [e] at hm
      cases l with
      | nil => exact hl rfl
      | cons _ _ => simp at hm
    have hcb := clearbase_eq t b hc
    rw [hsurv] at hcb
    have hlen : ¬ ((b.peers.length : Int) = 0) := by
      cases hp : b.peers with
      | nil => exact absurd hp hne
      | cons _ _ => simp; omega
    refine ⟨hl, clearbase b t, ?_, ?_, ?_⟩
    · rw [torrents_of_updatebases, ht]
      simp only [updatebases]
      rw [if_neg (by rw [hcb]; exact hlen)]
    · rw [hcb]
    · rw [hcb]; exact hm

theorem filter_set_single {α : Type} (p : α → Bool) (l : List α) (i : Nat) (b x : α)
    (hb : l[i]? = some b) (hpb : p b = true) (hpx : p x = true) (hf : l.filter p = [b]) :
    (l.set i x).filter p = [x] := by
  induction l generalizing i with
  | nil => simp at hb
  | cons y ys ih =>
    cases i with
    | zero =>
      simp at hb
      subst hb
      simp only [List.filter_cons, hpb, if_true, List.cons.injEq, true_and] at hf
      simp [List.filter_cons, hpx, hf]
    | succ k =>
      simp at hb
      have hmem : b ∈ ys.filter p := List.mem_filter.mpr ⟨List.getElem?_mem hb, hpb⟩
      by_cases hy : p y = true
      · simp only [List.filter_cons, hy, if_true, List.cons.injEq] at hf
        rw [hf.2] at hmem
        simp at hmem
      · simp only [List.filter_cons, hy, if_false] at hf
        simp only [List.set_cons_succ, List.filter_cons, hy, if_false]
        exact ih k hb hf

theorem core_stored_peer (env : Env) (p : Peer) (i : Int) :
    core (stored_peer env p i) = core p := rfl

/-- An announce for `h` with an identity not stored yet appends the peer to the torrent for
`h`; the peers other than the returned node are those stored before. -/
theorem provide_announce_holds (h : List Nat) (env : Env) (addr : Nat) (st : State)
    (req : List Request) (p : Peer) (l : List Peer)
    (hh : holds_peers h st.db l)
    (hp : parse_announce env addr req = some (h, p))
    (hn : ∀ c ∈ l, same_peer p c = false) :
    holds_peers h (provide_announce env addr st req).1.db (l ++ [p]) ∧
    ((update_peer env ((search_infohash st.db h).1.getD (search_infohash st.db h).2
        (new_base h)) p).base.peers.eraseIdx
      (update_peer env ((search_infohash st.db h).1.getD (search_infohash st.db h).2
        (new_base h)) p).added).map core = l.map core ∧
    (update_peer env ((search_infohash st.db h).1.getD (search_infohash st.db h).2
        (new_base h)) p).base.cpeers = (l.length : Int) + 1 := by
  have hself : strcasecmp h h = 0 := (strcasecmp_eq_zero_iff _ _).mpr rfl
  rcases provide_announce_db env addr st req h p hp with
    ⟨i, b, hfi, hbi, hm, hg, hdb⟩ | ⟨hf, hg, hdb⟩
  · -- the torrent exists
    have hbm : b ∈ torrents_of h st.db :=
      List.mem_filter.mpr ⟨List.getElem?_mem hbi, by simp [hm]⟩
    rcases hh with ⟨_, ht⟩ | ⟨hl, b2, ht, hc, hcore⟩
    · rw [ht] at hbm
      simp at hbm
    · have hbb : b = b2 := by
        rw [ht] at hbm
        simpa using hbm
      subst hbb
      have hfind : find_peer p b.peers 0 = none :=
        (find_peer_none_iff p b.peers 0).mpr (not_same_of_core p b.peers l hcore hn)
      have hlen : b.peers.length = l.length := by
        have := congrArg List.length hcore
        simpa using this
      have hu := update_peer_new env b p hfind
      have hpeers : (update_peer env b p).base.peers = b.peers ++
          [stored_peer env p (compute_interval (b.cpeers + 1) (b.cuppeers + 1))] := by rw [hu]
      have hcp : (update_peer env b p).base.cpeers = b.cpeers + 1 := by rw [hu]
      have hadd : (update_peer env b p).added = b.peers.length := by rw [hu]
      rw [hg, hdb]
      refine ⟨Or.inr ⟨by simp, (update_peer env b p).base, ?_, ?_, ?_⟩, ?_, ?_⟩
      · unfold torrents_of at ht ⊢
        exact filter_set_single _ st.db i b _ hbi (by simp [hm])
          (by simp [update_peer_infohash, hm]) ht
      · rw [hcp, hpeers, hc]
        simp
      · rw [hpeers]
        simp [hcore, core_stored_peer]
      · rw [hadd, hpeers, List.eraseIdx_append_of_length_le (Nat.le_refl _)]
        simp [hcore]
      · rw [hcp, hc, hlen]
  · -- no torrent yet
    have hall := (find_base_none_iff h st.db 0).mp hf
    have hempty : torrents_of h st.db = [] := by
      unfold torrents_of
      rw [List.filter_eq_nil_iff]
      intro a ha
      simpa using hall a ha
    rcases hh with ⟨hl, _⟩ | ⟨_, b2, ht, _, _⟩
    · subst hl
      have hfind : find_peer p (new_base h).peers 0 = none := by simp [new_base, find_peer]
      have hu := update_peer_new env (new_base h) p hfind
      have hpeers : (update_peer env (new_base h) p).base.peers =
          [stored_peer env p (compute_interval ((new_base h).cpeers + 1)
            ((new_base h).cuppeers + 1))] := by rw [hu]; rfl
      have hcp : (update_peer env (new_base h) p).base.cpeers = 1 := by rw [hu]; rfl
      have hadd : (update_peer env (new_base h) p).added = 0 := by rw [hu]; rfl
      rw [hg, hdb]
      refine ⟨Or.inr ⟨by simp, (update_peer env (new_base h) p).base, ?_, ?_, ?_⟩, ?_, ?_⟩
      · unfold torrents_of at hempty ⊢
        rw [List.filter_append, hempty]
        simp [update_peer_infohash, new_base, hself]
      · rw [hcp, hpeers]
        simp
      · rw [hpeers]
        simp [core_stored_peer]
      · rw [hadd, hpeers]
        simp
      · rw [hcp]
        simp
    · rw [hempty] at ht
      simp at ht

theorem same_peer_false_symm (x y : Peer) (h : same_peer x y = false) :
    same_peer y x = false := by
  rw [same_peer_false_iff] at h ⊢
  exact fun e => h e.symm

theorem announce_request_holds (h : List Nat) (a : Step) (st : State) (p : Peer)
    (l : List Peer) (hh : holds_peers h st.db l)
    (hx : ∀ b ∈ st.db, strcasecmp h b.infohash = 0 → ∀ q ∈ b.peers, a.curtime ≤ q.expire)
    (hp : parse_announce a.env a.addr a.req = some (h, p))
    (hn : ∀ c ∈ l, same_peer p c = false) :
    holds_peers h (announce_request a.env a.curtime a.addr st a.req).1.db (l ++ [p]) :=
  (provide_announce_holds h a.env a.addr ⟨updatebases a.curtime st.db, st.announce_interval⟩
    a.req p l (holds_peers_updatebases h a.curtime st.db l hh hx) hp hn).1

theorem run_holds (h : List Nat) (as : List Step) (cands : List Peer) (st : State)
    (l : List Peer) (hh : holds_peers h st.db l)
    (hp : List.Forall₂ (fun (s : Step) (p : Peer) =>
      parse_announce s.env s.addr s.req = some (h, p)) as cands)
    (hd : distinct_peers (l ++ cands))
    (hx : no_expiry h st as) :
    holds_peers h (run st as).db (l ++ cands) := by
  induction hp generalizing st l with
  | nil => simpa [run] using hh
  | @cons a c as cs hac _ ih =>
    obtain ⟨hx1, hx2⟩ := hx
    have hn : ∀ x ∈ l, same_peer c x = false := by
      intro x hm
      have hpw := (List.pairwise_append.mp hd).2.2 x hm c (List.mem_cons_self _ _)
      exact same_peer_false_symm x c hpw
    have hstep := announce_request_holds h a st c l hh hx1 hac hn
    have hd2 : distinct_peers ((l ++ [c]) ++ cs) := by
      simpa [List.append_assoc] using hd
    have := ih _ (l ++ [c]) hstep hd2 hx2
    simpa [run, List.append_assoc] using this

theorem no_expiry_append (h : List Nat) (st : State) (as : List Step) (a : Step)
    (hx : no_expiry h st (as ++ [a])) :
    no_expiry h st as ∧
      ∀ b ∈ (run st as).db, strcasecmp h b.infohash = 0 → ∀ q ∈ b.peers, a.curtime ≤ q.expire := by
  induction as generalizing st with
  | nil =>
    simp only [List.nil_append, no_expiry] at hx
    exact ⟨trivial, hx.1⟩
  | cons s ss ih =>
    simp only [List.cons_append, no_expiry] at hx
    obtain ⟨h1, h2⟩ := ih _ hx.2
    exact ⟨⟨hx.1, h1⟩, h2⟩

theorem update_peer_refresh_order (env : Env) (b : Base) (p : Peer)
    (h : ∃ q ∈ b.peers, same_peer p q = true) :
    (update_peer env b p).base.peers.map ident = b.peers.map ident := by
  cases hf : find_peer p b.peers 0 with
  | none =>
    obtain ⟨q, hq, hs⟩ := h
    have := (find_peer_none_iff p b.peers 0).mp hf q hq
    rw [hs] at this
    exact absurd this (by decide)
  | some i =>
    obtain ⟨_, _, q, hq, hm⟩ := find_peer_some p b.peers 0 i hf
    simp only [Nat.sub_zero] at hq
    rw [update_peer_found env b p i hf]
    show (b.peers.set i (stored_peer env p _)).map ident = _
    apply map_set_same ident b.peers i q _ hq
    rw [ident_stored_peer]
    by_contra hne
    have := (same_peer_false_iff p q).mpr hne
    rw [hm] at this
    exact absurd this (by decide)

/-- C11 (insertion order). Start from a registry without a torrent for `h`. After announces
A1..An for `h` whose parameters pass the checks, with pairwise distinct identities and no
peer of the torrent expiring at any sweep, a further announce with a new identity is
answered with the records of the peers of A1..An in exactly that order: in the compact form
`cands.flatMap compact_record` behind the length `6 * n`, in the dictionary-list form
`cands.flatMap nopeerid_record`. A refresh of a stored identity leaves the sequence of
stored identities as it is. -/
theorem announce_reply_in_insertion_order (h : List Nat) (st0 : State) (as : List Step)
    (cands : List Peer) (a : Step) (pnew : Peer)
    (h0 : ∀ b ∈ st0.db, strcasecmp h b.infohash ≠ 0)
    (hp : List.Forall₂ (fun (s : Step) (p : Peer) =>
      parse_announce s.env s.addr s.req = some (h, p)) as cands)
    (hnew : parse_announce a.env a.addr a.req = some (h, pnew))
    (hd : distinct_peers (cands ++ [pnew]))
    (hx : no_expiry h st0 (as ++ [a])) :
    ((lookfor a.req (ascii ("compact"))).isSome = true →
      (announce_request a.env a.curtime a.addr (run st0 as) a.req).2 =
        [answer, ascii ("d8:intervali")
          ++ fmt_d (announce_request a.env a.curtime a.addr (run st0 as) a.req).1.announce_interval
          ++ ascii ("e5:peers") ++ fmt_d (6 * (cands.length : Int)) ++ ascii (":")
          ++ cands.flatMap compact_record ++ ascii ("e")]) ∧
    ((lookfor a.req (ascii ("compact"))).isSome = false →
     (lookfor a.req (ascii ("no_peer_id"))).isSome = true →
      (announce_request a.env a.curtime a.addr (run st0 as) a.req).2 =
        [answer, ascii ("d8:intervali")
          ++ fmt_d (announce_request a.env a.curtime a.addr (run st0 as) a.req).1.announce_interval
          ++ ascii ("e5:peersl") ++ cands.flatMap nopeerid_record ++ ascii ("ee")]) ∧
    (∀ (env : Env) (b : Base) (p : Peer), (∃ q ∈ b.peers, same_peer p q = true) →
      (update_peer env b p).base.peers.map ident = b.peers.map ident ∧
      (update_peer env b p).base.peers.length = b.peers.length) := by
  obtain ⟨hx1, hx2⟩ := no_expiry_append h st0 as a hx
  have hstart : holds_peers h st0.db [] := by
    left
    refine ⟨rfl, ?_⟩
    unfold torrents_of
    rw [List.filter_eq_nil_iff]
    intro b hb
    simpa using h0 b hb
  have hd1 : distinct_peers ([] ++ cands) := by
    simpa using (List.pairwise_append.mp hd).1
  have hrun := run_holds h as cands (run st0 [] ) [] (by simpa [run] using hstart) hp hd1
    (by simpa [run] using hx1)
  simp only [run, List.nil_append] at hrun
  have hswept := holds_peers_updatebases h a.curtime (run st0 as).db cands hrun hx2
  have hn : ∀ c ∈ cands, same_peer pnew c = false := by
    intro c hc
    have := (List.pairwise_append.mp hd).2.2 c hc pnew (List.mem_singleton.mpr rfl)
    exact same_peer_false_symm c pnew this
  obtain ⟨_, hothers, hcount⟩ := provide_announce_holds h a.env a.addr
    ⟨updatebases a.curtime (run st0 as).db, (run st0 as).announce_interval⟩ a.req pnew cands
    hswept hnew hn
  have hI := provide_announce_state a.env a.addr
    ⟨updatebases a.curtime (run st0 as).db, (run st0 as).announce_interval⟩ a.req h pnew hnew
  refine ⟨?_, ?_, ?_⟩
  · intro hc
    unfold announce_request
    rw [provide_announce_compact _ _ _ _ h pnew hnew hc, hI]
    unfold compact_body
    rw [compact_loop_eq _ _ 0 (Nat.zero_le _), Nat.sub_zero,
      flatMap_core compact_record compact_record_core _ cands hothers, hcount]
    have e : 6 * ((cands.length : Int) + 1 - 1) = 6 * (cands.length : Int) := by omega
    rw [e]
  · intro hc hnp
    have hc2 : ¬ (lookfor a.req (ascii ("compact"))).isSome = true := by simp [hc]
    unfold announce_request
    rw [provide_announce_nopeerid _ _ _ _ h pnew hnew hc2 hnp, hI]
    unfold nopeerid_body
    rw [nopeerid_loop_eq _ _ 0 (Nat.zero_le _), Nat.sub_zero,
      flatMap_core nopeerid_record nopeerid_record_core _ cands hothers]
  · intro env b p hq
    have ho := update_peer_refresh_order env b p hq
    refine ⟨ho, ?_⟩
    have := congrArg List.length ho
    simpa using this

theorem announce_reply_in_insertion_order_witness :
    distinct_peers ([sample_cand1] ++ [sample_cand2]) ∧
    no_expiry (ascii ("HASH1")) ⟨[], 0⟩ ([sample_step1] ++ [sample_step2]) ∧
    parse_announce sample_step2.env sample_step2.addr sample_step2.req
      = some (ascii ("HASH1"), sample_cand2) ∧
    (announce_request sample_step2.env sample_step2.curtime sample_step2.addr
      (run ⟨[], 0⟩ [sample_step1]) sample_step2.req).2 =
      [answer, ascii ("d8:intervali900e5:peers6:") ++ [10, 0, 0, 1, 26, 225] ++ ascii ("e")] := by
  have hd : distinct_peers ([sample_cand1] ++ [sample_cand2]) := by
    refine List.Pairwise.cons ?_ (List.Pairwise.cons (by simp) List.Pairwise.nil)
    intro x hx
    rw [List.mem_singleton.mp hx]
    decide
  have hs : (announce_request sample_step1.env sample_step1.curtime sample_step1.addr
      ⟨[], 0⟩ sample_step1.req).1 = ⟨[sample_base1], 900⟩ := by decide
  have hx : no_expiry (ascii ("HASH1")) ⟨[], 0⟩ ([sample_step1] ++ [sample_step2]) := by
    refine ⟨by simp, ?_, trivial⟩
    rw [hs]
    intro b hb _ q hq
    rw [List.mem_singleton.mp hb] at hq
    rw [List.mem_singleton.mp hq]
    decide
  exact ⟨hd, hx, by decide,
    ((announce_reply_in_insertion_order (ascii ("HASH1")) ⟨[], 0⟩ [sample_step1]
      [sample_cand1] sample_step2 sample_cand2 (by simp)
      (List.Forall₂.cons (by decide) List.Forall₂.nil) (by decide) hd hx).1
      (by decide)).trans (by decide)⟩

/-! ### `cuppeers` after a sweep and an insert -/

theorem clearbase_cuppeers (b : Base) (t : Int) :
    (clearbase b t).peers = survivors t b.peers ∧
    (clearbase b t).cuppeers = (active_after t (survivors t b.peers) : Int) := by
  unfold clearbase
  rw [clearbase_loop_eq]
  simp

theorem active_after_append_one (t : Int) (l : List Peer) (q : Peer) (h : t + 60 < q.expire) :
    active_after t (l ++ [q]) = active_after t l + 1 := by
  simp [active_after, List.filter_append, h]

/-- After a sweep at `now` and the insert of a new peer at `now`, `cuppeers` is the number of
peers of the torrent that expire more than 60 seconds after `now`, provided the expiry time
computed for an interval of at least 900 lies more than 60 seconds after `now`. -/
theorem sweep_insert_cuppeers (env : Env) (b : Base) (p : Peer)
    (hx : ∀ i : Int, 900 ≤ i → env.now + 60 < env.expire_at env.now i)
    (hf : find_peer p (clearbase b env.now).peers 0 = none) :
    (update_peer env (clearbase b env.now) p).base.cuppeers =
      (active_after env.now (update_peer env (clearbase b env.now) p).base.peers : Int) := by
  obtain ⟨hp, hc⟩ := clearbase_cuppeers b env.now
  have hu := update_peer_new env (clearbase b env.now) p hf
  have hexp : env.now + 60 < (stored_peer env p (compute_interval
      ((clearbase b env.now).cpeers + 1) ((clearbase b env.now).cuppeers + 1))).expire :=
    hx _ (compute_interval_ge _ _)
  rw [hu]
  simp only []
  rw [active_after_append_one _ _ _ hexp, hc, hp]
  push_cast
  rfl

/-! ### The size limit of a request -/

end Tracker
